import Mathlib

/-!
Verification of the OMVA voice-enrollment skill (`src/__init__.py`,
`src/constants.py`) against its natural-language specification.

The Python code is shallowly embedded: the name validator/normalizer and the
third-person name extractor become pure Lean functions on `String`/`List Char`;
the enrollment session state machine becomes explicit state passing over a
`SkillState` record (the `enrollment_context` dict is a record of `Option`
fields, bus emissions and spoken dialogs are an accumulated effect list, and a
Python exception such as `KeyError` is an explicit error value carried in the
result).  Python's `str.lower`/`str.upper`/`str.capitalize` are modelled with
`Char.toLower`/`Char.toUpper` (faithful on the ASCII fragment exercised here),
`unicodedata.category(c).startswith("L")` with `Char.isAlpha` (faithful on
ASCII input), and `datetime.now()` with a logical clock counter.
-/

namespace OMVA

/-! ### Character-level groundwork -/

theorem char_eq_iff_toNat {c d : Char} : c = d ↔ c.toNat = d.toNat := by
  constructor
  · intro h; rw [h]
  · intro h
    have h2 := congrArg Char.ofNat h
    rwa [Char.ofNat_toNat, Char.ofNat_toNat] at h2

theorem toNat_ofNat_valid {n : Nat} (h : n < 55296) : (Char.ofNat n).toNat = n := by
  unfold Char.ofNat
  rw [dif_pos (Or.inl h)]
  simp [Char.ofNatAux, Char.toNat, UInt32.toNat, BitVec.toNat_ofNatLt]

theorem toUpper_toNat (c : Char) :
    (c.toUpper).toNat = if 97 ≤ c.toNat ∧ c.toNat ≤ 122 then c.toNat - 32 else c.toNat := by
  unfold Char.toUpper
  dsimp only
  split
  · rw [toNat_ofNat_valid (by omega)]
  · rfl

theorem toLower_toNat (c : Char) :
    (c.toLower).toNat = if 65 ≤ c.toNat ∧ c.toNat ≤ 90 then c.toNat + 32 else c.toNat := by
  unfold Char.toLower
  dsimp only
  split
  · rw [toNat_ofNat_valid (by omega)]
  · rfl

theorem toUpper_toUpper (c : Char) : c.toUpper.toUpper = c.toUpper := by
  rw [char_eq_iff_toNat, toUpper_toNat, toUpper_toNat c]
  split_ifs <;> omega

theorem toLower_toUpper (c : Char) : c.toUpper.toLower = c.toLower := by
  rw [char_eq_iff_toNat, toLower_toNat, toUpper_toNat c, toLower_toNat c]
  split_ifs <;> omega

theorem toLower_toLower (c : Char) : c.toLower.toLower = c.toLower := by
  rw [char_eq_iff_toNat, toLower_toNat, toLower_toNat c]
  split_ifs <;> omega

/-- For target characters below code point 65 (whitespace, hyphen, apostrophe,
period, …), `toUpper` neither produces nor destroys them. -/
theorem toUpper_eq_low {c d : Char} (hd : d.toNat < 65) : c.toUpper = d ↔ c = d := by
  rw [char_eq_iff_toNat, char_eq_iff_toNat, toUpper_toNat]
  split_ifs <;> omega

theorem toLower_eq_low {c d : Char} (hd : d.toNat < 65) : c.toLower = d ↔ c = d := by
  rw [char_eq_iff_toNat, char_eq_iff_toNat, toLower_toNat]
  split_ifs <;> omega

/-! ### Shared character classes (from `validate_user_name` and `clean_name`) -/

/-- The apostrophe character, written via its code point. -/
def apoCh : Char := Char.ofNat 39

/-- Model of `unicodedata.category(char).startswith("L")` (any-script letter),
restricted to the ASCII letters that the skill's patterns and tests exercise. -/
def isLetterCh (c : Char) : Bool := c.isAlpha

/-- Model of the regex class `\s` / Python `str.split()` whitespace. -/
def isWsCh (c : Char) : Bool := c.isWhitespace

/-- `char in " '-"` combined with the letter test: the character classes
accepted by `validate_user_name`. -/
def allowedCh (c : Char) : Bool := isLetterCh c || c = ' ' || c = apoCh || c = '-'

/-- The regex character class `[\s\-\']`. -/
def specialCh (c : Char) : Bool := isWsCh c || c = '-' || c = apoCh

/-- `re.search(r"[\s\-\']{3,}", name)`: some three consecutive characters all
fall in the class. -/
def hasRun3 : List Char → Bool
  | a :: b :: c :: rest => (specialCh a && specialCh b && specialCh c) || hasRun3 (b :: c :: rest)
  | _ => false

theorem apoCh_toNat : apoCh.toNat = 39 := by
  unfold apoCh
  rw [toNat_ofNat_valid (by omega)]

theorem isLetter_toNat (c : Char) : isLetterCh c = true ↔
    (65 ≤ c.toNat ∧ c.toNat ≤ 90) ∨ (97 ≤ c.toNat ∧ c.toNat ≤ 122) := by
  unfold isLetterCh Char.isAlpha Char.isUpper Char.isLower
  simp only [Bool.or_eq_true, Bool.and_eq_true, decide_eq_true_eq, UInt32.le_def,
    BitVec.le_def, Char.toNat]
  rfl

theorem isWs_toNat (c : Char) : isWsCh c = true ↔
    c.toNat = 32 ∨ c.toNat = 9 ∨ c.toNat = 13 ∨ c.toNat = 10 := by
  unfold isWsCh Char.isWhitespace
  constructor
  · intro h
    simp only [Bool.or_eq_true, decide_eq_true_eq] at h
    rcases h with ((h | h) | h) | h <;> subst h <;> simp
  · intro h
    have hc : c = ' ' ∨ c = '\t' ∨ c = '\r' ∨ c = '\n' := by
      rcases h with h | h | h | h
      · left; have h2 := congrArg Char.ofNat h; rwa [Char.ofNat_toNat] at h2
      · right; left; have h2 := congrArg Char.ofNat h; rwa [Char.ofNat_toNat] at h2
      · right; right; left; have h2 := congrArg Char.ofNat h; rwa [Char.ofNat_toNat] at h2
      · right; right; right; have h2 := congrArg Char.ofNat h; rwa [Char.ofNat_toNat] at h2
    rcases hc with h | h | h | h <;> subst h <;> decide

theorem isLetter_not_ws {c : Char} (h : isLetterCh c = true) : isWsCh c = false := by
  rw [isLetter_toNat] at h
  rcases Bool.eq_false_or_eq_true (isWsCh c) with hw | hw
  · rw [isWs_toNat] at hw; omega
  · exact hw

theorem run3_cons {l : List Char} (x : Char) (h : hasRun3 l = true) :
    hasRun3 (x :: l) = true := by
  match l with
  | [] => exact absurd h Bool.false_ne_true
  | [a] => exact absurd h Bool.false_ne_true
  | a :: b :: rest =>
    show (_ || hasRun3 (a :: b :: rest)) = true
    rw [h, Bool.or_true]

theorem run3_append (p : List Char) {a b c : Char} (s : List Char)
    (ha : specialCh a = true) (hb : specialCh b = true) (hc : specialCh c = true) :
    hasRun3 (p ++ a :: b :: c :: s) = true := by
  induction p with
  | nil =>
    show (_ || _) = true
    rw [ha, hb, hc]
    rfl
  | cons x p ih => exact run3_cons x ih

theorem hasRun3_true_iff (l : List Char) : hasRun3 l = true ↔
    ∃ p a b c s, l = p ++ a :: b :: c :: s ∧
      specialCh a = true ∧ specialCh b = true ∧ specialCh c = true := by
  constructor
  · intro h
    induction l with
    | nil => exact absurd h Bool.false_ne_true
    | cons a l ih =>
      match l, ih with
      | [], _ => exact absurd h Bool.false_ne_true
      | [b], _ => exact absurd h Bool.false_ne_true
      | b :: c :: rest, ih =>
        rcases Bool.or_eq_true_iff.mp h with h1 | h1
        · simp only [Bool.and_eq_true] at h1
          exact ⟨[], a, b, c, rest, rfl, h1.1.1, h1.1.2, h1.2⟩
        · obtain ⟨p, x, y, z, s, heq, hx, hy, hz⟩ := ih h1
          exact ⟨a :: p, x, y, z, s, by rw [List.cons_append, heq], hx, hy, hz⟩
  · rintro ⟨p, a, b, c, s, rfl, ha, hb, hc⟩
    exact run3_append p s ha hb hc

/-! ### Python string primitives over `List Char` -/

/-- Python `str.strip()`: drop leading and trailing whitespace. -/
def stripC (l : List Char) : List Char :=
  ((l.dropWhile isWsCh).reverse.dropWhile isWsCh).reverse

/-! ### Name validator (`validate_user_name`, src/__init__.py:556-606) -/

/-- The regex class `[!@#$%^&*()_+=\[\]{}|;:,.<>?/~]` plus the backtick
(disallowed punctuation); brace and backtick characters via code points. -/
def pyPunctChars : List Char :=
  ['!', '@', '#', '$', '%', '^', '&', '*', '(', ')', '_', '+', '=', '[', ']',
   Char.ofNat 123, Char.ofNat 125, '|', ';', ':', ',', '.', '<', '>', '?', '/', '~',
   Char.ofNat 96]

/-- The denylist from `r"^(test|admin|root|user)$"` with `re.IGNORECASE`. -/
def genericNames : List String := ["test", "admin", "root", "user"]

/-- `validate_user_name` (src/__init__.py:556-606): the checks run in source
order over the stripped name; each failing check returns `False` early. -/
def validate_user_name (s : String) : Bool :=
  let l := stripC s.toList
  if l.length < 2 ∨ 50 < l.length then false
  else if ¬ (l.all allowedCh = true) then false
  else if ¬ (isLetterCh (l.headD ' ') = true ∧ isLetterCh (l.getLastD ' ') = true) then false
  else if hasRun3 l = true then false
  else if (l.any Char.isDigit) = true then false
  else if (l.any fun c => decide (c ∈ pyPunctChars)) = true then false
  else if String.mk (l.map Char.toLower) ∈ genericNames then false
  else true

/-! ### The specification's reading of the validation rules (claim C5) -/

/-- A space, hyphen or apostrophe (the spec's wording of the run-of-three
rule, which names exactly these three characters). -/
def sepCh (c : Char) : Prop := c = ' ' ∨ c = '-' ∨ c = apoCh

/-- Three or more consecutive space/hyphen/apostrophe characters occur. -/
def HasTripleSep (l : List Char) : Prop :=
  ∃ p a b c s, l = p ++ a :: b :: c :: s ∧ sepCh a ∧ sepCh b ∧ sepCh c

/-- The specification's conjunction of acceptance rules for a (stripped)
candidate name. -/
def SpecValidName (l : List Char) : Prop :=
  2 ≤ l.length ∧ l.length ≤ 50 ∧
  (∀ c ∈ l, isLetterCh c = true ∨ c = ' ' ∨ c = '-' ∨ c = apoCh) ∧
  isLetterCh (l.headD ' ') = true ∧ isLetterCh (l.getLastD ' ') = true ∧
  ¬ HasTripleSep l ∧
  (∀ c ∈ l, ¬ c.isDigit = true) ∧
  (∀ c ∈ l, c ∉ pyPunctChars) ∧
  String.mk (l.map Char.toLower) ∉ genericNames

theorem specialCh_of_sepCh {c : Char} (h : sepCh c) : specialCh c = true := by
  rcases h with h | h | h <;> subst h <;> decide

theorem sepCh_of_specialCh_allowed {c : Char} (hs : specialCh c = true)
    (ha : allowedCh c = true) : sepCh c := by
  unfold specialCh at hs
  rcases Bool.or_eq_true_iff.mp hs with hs1 | hs1
  · rcases Bool.or_eq_true_iff.mp hs1 with hw | hh
    · unfold allowedCh at ha
      rcases Bool.or_eq_true_iff.mp ha with ha1 | ha1
      · rcases Bool.or_eq_true_iff.mp ha1 with ha2 | ha2
        · rcases Bool.or_eq_true_iff.mp ha2 with hL | hsp
          · rw [isLetter_not_ws hL] at hw; exact absurd hw (by decide)
          · exact Or.inl (of_decide_eq_true hsp)
        · exact Or.inr (Or.inr (of_decide_eq_true ha2))
      · exact Or.inr (Or.inl (of_decide_eq_true ha1))
    · exact Or.inr (Or.inl (of_decide_eq_true hh))
  · exact Or.inr (Or.inr (of_decide_eq_true hs1))

/-- C5: `validate` accepts exactly the (stripped) strings satisfying all of the
specification's rules: length in [2,50], only letters/space/hyphen/apostrophe,
letter-bounded, no run of three separators, no digit or disallowed punctuation,
and not a generic denylisted name. -/
theorem c5_validate_matches_spec (s : String) :
    validate_user_name s = true ↔ SpecValidName (stripC s.toList) := by
  unfold validate_user_name
  dsimp only
  constructor
  · intro h
    split_ifs at h with h1 h2 h3 h4 h5 h6 h7
    push_neg at h1
    refine ⟨h1.1, h1.2, ?_, h3.1, h3.2, ?_, ?_, ?_, h7⟩
    · intro c hc
      have := List.all_eq_true.mp h2 c hc
      unfold allowedCh at this
      rcases Bool.or_eq_true_iff.mp this with hx | hx
      · rcases Bool.or_eq_true_iff.mp hx with hy | hy
        · rcases Bool.or_eq_true_iff.mp hy with hz | hz
          · exact Or.inl hz
          · exact Or.inr (Or.inl (of_decide_eq_true hz))
        · exact Or.inr (Or.inr (Or.inr (of_decide_eq_true hy)))
      · exact Or.inr (Or.inr (Or.inl (of_decide_eq_true hx)))
    · rintro ⟨p, a, b, c, q, heq, ha, hb, hc⟩
      exact h4 (heq ▸ run3_append p q (specialCh_of_sepCh ha) (specialCh_of_sepCh hb)
        (specialCh_of_sepCh hc))
    · intro c hc hd
      exact h5 (List.any_eq_true.mpr ⟨c, hc, hd⟩)
    · intro c hc hm
      exact h6 (List.any_eq_true.mpr ⟨c, hc, decide_eq_true hm⟩)
  · rintro ⟨hl1, hl2, hcls, hhd, hlast, hrun, hdig, hpunct, hdeny⟩
    have hall : (stripC s.toList).all allowedCh = true := by
      rw [List.all_eq_true]
      intro c hc
      unfold allowedCh
      rcases hcls c hc with h | h | h | h
      · rw [h]; rfl
      · subst h; decide
      · subst h; decide
      · subst h; decide
    rw [if_neg (by omega), if_neg (by rw [not_not]; exact hall),
        if_neg (by rw [not_not]; exact ⟨hhd, hlast⟩)]
    rw [if_neg ?hrun, if_neg ?hdig, if_neg ?hpun, if_neg hdeny]
    case hrun =>
      intro habs
      obtain ⟨p, a, b, c, q, heq, ha, hb, hc⟩ := (hasRun3_true_iff _).mp habs
      have hmem : ∀ x ∈ [a, b, c], x ∈ (stripC s.toList) := by
        intro x hx
        rw [heq]
        fin_cases hx <;> simp
      refine hrun ⟨p, a, b, c, q, heq, ?_, ?_, ?_⟩
      · exact sepCh_of_specialCh_allowed ha (List.all_eq_true.mp hall a (hmem a (by simp)))
      · exact sepCh_of_specialCh_allowed hb (List.all_eq_true.mp hall b (hmem b (by simp)))
      · exact sepCh_of_specialCh_allowed hc (List.all_eq_true.mp hall c (hmem c (by simp)))
    case hdig =>
      intro habs
      obtain ⟨c, hc, hd⟩ := List.any_eq_true.mp habs
      exact hdig c hc hd
    case hpun =>
      intro habs
      obtain ⟨c, hc, hd⟩ := List.any_eq_true.mp habs
      exact hpunct c hc (of_decide_eq_true hd)

example : validate_user_name "Jean-Luc" = true := by decide
example : validate_user_name "Admin" = false := by decide
example : validate_user_name "John3" = false := by decide
example : validate_user_name "  Mary Jane  " = true := by decide
example : validate_user_name "a---b" = false := by decide


/-! ### Normalizer (`clean_name`, src/__init__.py:608-673) -/

def notWsCh (c : Char) : Bool := !isWsCh c

/-- Python `str.split()` (no separator), by accumulator: `acc` holds the
reversed word being read. -/
def pySplitAux : List Char → List Char → List (List Char)
  | [], acc => if acc = [] then [] else [acc.reverse]
  | c :: l, acc =>
    if isWsCh c then
      (if acc = [] then pySplitAux l [] else acc.reverse :: pySplitAux l [])
    else pySplitAux l (c :: acc)

/-- Python `str.split()` (no separator): whitespace-delimited words, empty
words dropped. -/
def pySplit (l : List Char) : List (List Char) := pySplitAux l []

/-- Python `sep.join(parts)` for a one-character separator. -/
def joinSep (sep : Char) : List (List Char) → List Char
  | [] => []
  | [w] => w
  | w :: v :: ws => w ++ sep :: joinSep sep (v :: ws)

/-- Python `" ".join(parts)`. -/
def joinWords (ws : List (List Char)) : List Char := joinSep ' ' ws

/-- Python `str.split(sep)` for a one-character separator (keeps empties). -/
def splitSep (sep : Char) : List Char → List (List Char)
  | [] => [[]]
  | c :: l =>
    if c = sep then [] :: splitSep sep l
    else
      match splitSep sep l with
      | [] => [[c]]
      | w :: ws => (c :: w) :: ws

/-- Python `str.capitalize()`: upper-case the first character, lower-case the
rest (ASCII fragment). -/
def capPy : List Char → List Char
  | [] => []
  | c :: r => c.toUpper :: r.map Char.toLower

/-- `re.sub(r"\s+", " ", ...)`: replace every whitespace run by one space. -/
def collapseRuns : List Char → List Char
  | [] => []
  | [c] => [if isWsCh c then ' ' else c]
  | c :: d :: rest =>
    if isWsCh c then
      (if isWsCh d then collapseRuns (d :: rest) else ' ' :: collapseRuns (d :: rest))
    else c :: collapseRuns (d :: rest)

/-- The recognized title spellings, lower-cased, in source order. -/
def titleLower : List (List Char) :=
  ["dr".toList, "dr.".toList, "mr".toList, "mr.".toList, "ms".toList, "ms.".toList,
   "mrs".toList, "mrs.".toList, "miss".toList]

/-- One word of the `clean_name` loop: canonical titles, hyphen-split
capitalization, apostrophe-split capitalization, else plain capitalize.
(The unreachable fall-through of the Python `elif` chain — the nine-element
membership guard together with the five inner tests is exhaustive — is written
as the final `else`.) -/
def fixWord (w : List Char) : List Char :=
  let lw := w.map Char.toLower
  if lw ∈ titleLower then
    if lw = "dr".toList ∨ lw = "dr.".toList then "Dr.".toList
    else if lw = "mr".toList ∨ lw = "mr.".toList then "Mr.".toList
    else if lw = "ms".toList ∨ lw = "ms.".toList then "Ms.".toList
    else if lw = "mrs".toList ∨ lw = "mrs.".toList then "Mrs.".toList
    else "Miss".toList
  else if '-' ∈ w then joinSep '-' ((splitSep '-' w).map capPy)
  else if apoCh ∈ w then joinSep apoCh ((splitSep apoCh w).map capPy)
  else capPy w

/-- `clean_name` (src/__init__.py:608-673).  Returns `none` where the Python
raises: on a non-empty all-whitespace input, `name.split()[0]` (the
unsupported-title lookup) raises `IndexError`. -/
def clean_name (s : String) : Option String :=
  if s = "" then some ""
  else
    let collapsed := collapseRuns (stripC s.toList)
    match pySplit collapsed with
    | [] => none
    | w :: ws => some (String.mk (joinWords ((w :: ws).map fixWord)))

example : clean_name "jean-luc  picard" = some "Jean-Luc Picard" := by decide
example : clean_name "o'connor" = some "O'Connor" := by decide
example : clean_name "dr  jean luc" = some "Dr. Jean Luc" := by decide
example : clean_name "MRS. smith" = some "Mrs. Smith" := by decide
example : clean_name "o'connor-smith" = some "O'connor-Smith" := by decide
example : clean_name "   " = none := by decide
example : clean_name "" = some "" := by decide
example : clean_name "miss  daisy" = some "Miss Daisy" := by decide

/-! ### `pySplit` lemmas -/

theorem pySplitAux_nil (acc : List Char) :
    pySplitAux [] acc = if acc = [] then [] else [acc.reverse] := rfl

theorem pySplitAux_cons (c : Char) (l acc : List Char) :
    pySplitAux (c :: l) acc =
      if isWsCh c then
        (if acc = [] then pySplitAux l [] else acc.reverse :: pySplitAux l [])
      else pySplitAux l (c :: acc) := rfl

theorem pySplit_cons_ws {c : Char} (l : List Char) (hc : isWsCh c = true) :
    pySplit (c :: l) = pySplit l := by
  unfold pySplit
  rw [pySplitAux_cons, hc]
  rfl

theorem pySplitAux_shift {w : List Char} (hw : ∀ c ∈ w, isWsCh c = false) :
    ∀ (l acc : List Char), pySplitAux (w ++ l) acc = pySplitAux l (w.reverse ++ acc) := by
  induction w with
  | nil => intro l acc; simp
  | cons c w ih =>
    intro l acc
    have hc : isWsCh c = false := hw c (List.mem_cons_self c w)
    have hw' : ∀ x ∈ w, isWsCh x = false := fun x hx => hw x (List.mem_cons_of_mem c hx)
    rw [List.cons_append, pySplitAux_cons, hc]
    show pySplitAux (w ++ l) (c :: acc) = _
    rw [ih hw' l (c :: acc)]
    simp

theorem pySplitAux_allWs {t : List Char} (ht : ∀ c ∈ t, isWsCh c = true) :
    ∀ acc, pySplitAux t acc = if acc = [] then [] else [acc.reverse] := by
  induction t with
  | nil => intro acc; rfl
  | cons c t ih =>
    intro acc
    have hc := ht c (List.mem_cons_self c t)
    have ht' : ∀ x ∈ t, isWsCh x = true := fun x hx => ht x (List.mem_cons_of_mem c hx)
    rw [pySplitAux_cons, hc, if_pos rfl, ih ht' []]
    by_cases hacc : acc = []
    · rw [if_pos hacc, if_pos hacc]
      rfl
    · rw [if_neg hacc, if_neg hacc]
      rfl

theorem pySplit_words {l : List Char} :
    ∀ w ∈ pySplit l, w ≠ [] ∧ ∀ c ∈ w, isWsCh c = false := by
  have main : ∀ (l acc : List Char), (∀ c ∈ acc, isWsCh c = false) →
      ∀ w ∈ pySplitAux l acc, w ≠ [] ∧ ∀ c ∈ w, isWsCh c = false := by
    intro l
    induction l with
    | nil =>
      intro acc hacc w hw
      rw [pySplitAux_nil] at hw
      split at hw
      · exact absurd hw (List.not_mem_nil w)
      · next hne =>
        rw [List.mem_singleton] at hw
        subst hw
        refine ⟨fun habs => hne (by simpa using habs), ?_⟩
        intro c hc
        exact hacc c (List.mem_reverse.mp hc)
    | cons c l ih =>
      intro acc hacc w hw
      rw [pySplitAux_cons] at hw
      split at hw
      · split at hw
        · exact ih [] (by simp) w hw
        · next hne =>
          rcases List.mem_cons.mp hw with h1 | h1
          · subst h1
            refine ⟨fun habs => hne (by simpa using habs), ?_⟩
            intro x hx
            exact hacc x (List.mem_reverse.mp hx)
          · exact ih [] (by simp) w h1
      · next hc =>
        refine ih (c :: acc) ?_ w hw
        intro x hx
        rcases List.mem_cons.mp hx with h1 | h1
        · subst h1
          exact Bool.eq_false_iff.mpr (fun habs => hc (by rw [habs]))
        · exact hacc x h1
  exact fun w hw => main l [] (by simp) w hw

theorem pySplit_join_words {ws : List (List Char)}
    (h : ∀ w ∈ ws, w ≠ [] ∧ ∀ c ∈ w, isWsCh c = false) :
    pySplit (joinWords ws) = ws := by
  induction ws with
  | nil => rfl
  | cons w ws ih =>
    match ws, ih with
    | [], _ =>
      obtain ⟨hne, hnw⟩ := h w (List.mem_singleton.mpr rfl)
      show pySplit w = [w]
      have h2 : pySplit (w ++ []) = [w] := by
        unfold pySplit
        rw [pySplitAux_shift hnw [] [], pySplitAux_nil]
        rw [if_neg (by simpa using hne)]
        simp
      simpa using h2
    | v :: ws', ih =>
      obtain ⟨hne, hnw⟩ := h w (List.mem_cons_self _ _)
      have h' : ∀ u ∈ v :: ws', u ≠ [] ∧ ∀ c ∈ u, isWsCh c = false :=
        fun u hu => h u (List.mem_cons_of_mem _ hu)
      show pySplit (w ++ ' ' :: joinWords (v :: ws')) = _
      unfold pySplit
      rw [pySplitAux_shift hnw _ [], pySplitAux_cons]
      rw [if_pos (by decide), if_neg (by simpa using hne)]
      rw [List.append_nil, List.reverse_reverse]
      exact congrArg (w :: ·) (ih h')

theorem pySplit_append_ws {t : List Char} (ht : ∀ c ∈ t, isWsCh c = true) :
    ∀ l, pySplit (l ++ t) = pySplit l := by
  have main : ∀ (l acc : List Char), pySplitAux (l ++ t) acc = pySplitAux l acc := by
    intro l
    induction l with
    | nil =>
      intro acc
      rw [List.nil_append, pySplitAux_allWs ht acc, pySplitAux_nil]
    | cons c l ih =>
      intro acc
      rw [List.cons_append, pySplitAux_cons, pySplitAux_cons, ih, ih]
  exact fun l => main l []

theorem pySplit_dropWhile_ws (l : List Char) :
    pySplit (l.dropWhile isWsCh) = pySplit l := by
  induction l with
  | nil => rfl
  | cons c l ih =>
    by_cases hc : isWsCh c = true
    · rw [List.dropWhile_cons_of_pos hc, ih, pySplit_cons_ws l hc]
    · rw [List.dropWhile_cons_of_neg hc]

theorem mem_takeWhile_ws {l : List Char} {c : Char} (h : c ∈ l.takeWhile isWsCh) :
    isWsCh c = true := by
  induction l with
  | nil => exact absurd h (List.not_mem_nil c)
  | cons x l ih =>
    by_cases hx : isWsCh x = true
    · rw [List.takeWhile_cons_of_pos hx] at h
      rcases List.mem_cons.mp h with h1 | h1
      · subst h1; exact hx
      · exact ih h1
    · rw [List.takeWhile_cons_of_neg hx] at h
      exact absurd h (List.not_mem_nil c)

theorem pySplit_stripC (l : List Char) : pySplit (stripC l) = pySplit l := by
  unfold stripC
  set m := l.dropWhile isWsCh with hm
  have hdecomp : m.reverse.takeWhile isWsCh ++ m.reverse.dropWhile isWsCh = m.reverse :=
    List.takeWhile_append_dropWhile isWsCh m.reverse
  have hm2 : (m.reverse.dropWhile isWsCh).reverse ++ (m.reverse.takeWhile isWsCh).reverse
      = m := by
    rw [← List.reverse_append, hdecomp, List.reverse_reverse]
  have hws : ∀ c ∈ (m.reverse.takeWhile isWsCh).reverse, isWsCh c = true := by
    intro c hc
    exact mem_takeWhile_ws (List.mem_reverse.mp hc)
  calc pySplit (m.reverse.dropWhile isWsCh).reverse
      = pySplit ((m.reverse.dropWhile isWsCh).reverse
          ++ (m.reverse.takeWhile isWsCh).reverse) := (pySplit_append_ws hws _).symm
    _ = pySplit m := by rw [hm2]
    _ = pySplit l := pySplit_dropWhile_ws l

def startsWs : List Char → Bool
  | [] => false
  | c :: _ => isWsCh c

theorem pySplitAux_ne_nil {l acc : List Char} (hacc : acc ≠ []) :
    pySplitAux l acc ≠ [] := by
  induction l generalizing acc with
  | nil =>
    rw [pySplitAux_nil, if_neg hacc]
    simp
  | cons c l ih =>
    rw [pySplitAux_cons]
    split
    · simp
    · exact ih (by simp)

theorem pySplit_ne_nil {l : List Char} {c : Char} (hc : c ∈ l) (hw : isWsCh c = false) :
    pySplit l ≠ [] := by
  induction l with
  | nil => exact absurd hc (List.not_mem_nil c)
  | cons x l ih =>
    by_cases hx : isWsCh x = true
    · rw [pySplit_cons_ws l hx]
      rcases List.mem_cons.mp hc with h1 | h1
      · subst h1; rw [hx] at hw; exact absurd hw (by simp)
      · exact ih h1
    · show pySplitAux (x :: l) [] ≠ []
      rw [pySplitAux_cons, if_neg hx]
      exact pySplitAux_ne_nil (by simp)

theorem head_dropWhile {p : Char → Bool} {l r : List Char} {u : Char}
    (h : l.dropWhile p = u :: r) : p u = false := by
  induction l with
  | nil => exact absurd h (by simp)
  | cons x l ih =>
    by_cases hx : p x = true
    · rw [List.dropWhile_cons_of_pos hx] at h
      exact ih h
    · rw [List.dropWhile_cons_of_neg hx] at h
      cases h
      exact Bool.eq_false_iff.mpr hx

theorem notWs_mem_takeWhile {l : List Char} {c : Char} (h : c ∈ l.takeWhile notWsCh) :
    isWsCh c = false := by
  induction l with
  | nil => exact absurd h (List.not_mem_nil c)
  | cons x l ih =>
    by_cases hx : notWsCh x = true
    · rw [List.takeWhile_cons_of_pos hx] at h
      rcases List.mem_cons.mp h with h1 | h1
      · subst h1
        unfold notWsCh at hx
        simpa using hx
      · exact ih h1
    · rw [List.takeWhile_cons_of_neg hx] at h
      exact absurd h (List.not_mem_nil c)

theorem pySplit_cons_nonws {c : Char} (l : List Char) (hc : isWsCh c = false) :
    pySplit (c :: l) = (c :: l.takeWhile notWsCh) :: pySplit (l.dropWhile notWsCh) := by
  show pySplitAux (c :: l) [] = _
  rw [pySplitAux_cons, hc]
  show pySplitAux l [c] = _
  have hdecomp := List.takeWhile_append_dropWhile notWsCh l
  have htw : ∀ x ∈ l.takeWhile notWsCh, isWsCh x = false := fun x hx => notWs_mem_takeWhile hx
  conv_lhs => rw [← hdecomp]
  rw [pySplitAux_shift htw _ [c]]
  cases hdw : l.dropWhile notWsCh with
  | nil =>
    rw [pySplitAux_nil, if_neg (by simp)]
    rw [show pySplit ([] : List Char) = [] from rfl]
    simp
  | cons u r =>
    have hu : notWsCh u = false := head_dropWhile hdw
    have hu2 : isWsCh u = true := by
      unfold notWsCh at hu
      simpa using hu
    rw [pySplitAux_cons, hu2, if_pos rfl, if_neg (by simp)]
    rw [pySplit_cons_ws r hu2]
    show _ = _ :: pySplitAux r []
    simp

theorem joinWords_cons_cons (c : Char) (w : List Char) (ws : List (List Char)) :
    joinWords ((c :: w) :: ws) = c :: joinWords (w :: ws) := by
  unfold joinWords
  cases ws with
  | nil => rfl
  | cons v ws => rfl

theorem mem_of_getLast? {l : List Char} {c : Char} (h : l.getLast? = some c) : c ∈ l := by
  induction l with
  | nil => simp at h
  | cons x l ih =>
    cases l with
    | nil =>
      simp at h
      subst h
      exact List.mem_singleton.mpr rfl
    | cons y l' =>
      rw [List.getLast?_cons_cons] at h
      exact List.mem_cons_of_mem x (ih h)

theorem collapse_eq_join {m : List Char}
    (hT : ∀ c, m.getLast? = some c → isWsCh c = false) :
    collapseRuns m =
      if startsWs m = true then ' ' :: joinWords (pySplit m) else joinWords (pySplit m) := by
  induction m with
  | nil => rfl
  | cons c m ih =>
    cases m with
    | nil =>
      have hc : isWsCh c = false := hT c rfl
      show collapseRuns [c] = _
      rw [show collapseRuns [c] = [if isWsCh c then ' ' else c] from rfl, hc]
      rw [show startsWs [c] = isWsCh c from rfl, hc]
      rw [pySplit_cons_nonws [] hc]
      simp [joinWords, joinSep]
    | cons d rest =>
      have hT' : ∀ x, (d :: rest).getLast? = some x → isWsCh x = false := by
        intro x hx
        exact hT x (by rw [List.getLast?_cons_cons]; exact hx)
      have ih' := ih hT'
      have hlast : ∃ z, (d :: rest).getLast? = some z ∧ isWsCh z = false := by
        cases hz : (d :: rest).getLast? with
        | none => simp at hz
        | some z => exact ⟨z, rfl, hT' z hz⟩
      obtain ⟨z, hz1, hz2⟩ := hlast
      have hne : pySplit (d :: rest) ≠ [] := pySplit_ne_nil (mem_of_getLast? hz1) hz2
      rw [show startsWs (c :: d :: rest) = isWsCh c from rfl]
      by_cases hc : isWsCh c = true
      · rw [show collapseRuns (c :: d :: rest) =
            (if isWsCh d then collapseRuns (d :: rest)
             else ' ' :: collapseRuns (d :: rest)) from by
          rw [show collapseRuns (c :: d :: rest) = if isWsCh c then
              (if isWsCh d then collapseRuns (d :: rest)
               else ' ' :: collapseRuns (d :: rest))
            else c :: collapseRuns (d :: rest) from rfl, hc, if_pos rfl]]
        rw [hc, if_pos rfl, pySplit_cons_ws _ hc]
        rw [ih', show startsWs (d :: rest) = isWsCh d from rfl]
        by_cases hd : isWsCh d = true
        · rw [hd, if_pos rfl, if_pos rfl]
        · rw [Bool.eq_false_iff.mpr hd, if_neg (by simp), if_neg (by simp)]
      · have hcf : isWsCh c = false := Bool.eq_false_iff.mpr hc
        rw [show collapseRuns (c :: d :: rest) = c :: collapseRuns (d :: rest) from by
          rw [show collapseRuns (c :: d :: rest) = if isWsCh c then
              (if isWsCh d then collapseRuns (d :: rest)
               else ' ' :: collapseRuns (d :: rest))
            else c :: collapseRuns (d :: rest) from rfl, hcf]
          simp]
        rw [hcf, if_neg (by simp)]
        rw [ih', show startsWs (d :: rest) = isWsCh d from rfl]
        by_cases hd : isWsCh d = true
        · rw [hd, if_pos rfl]
          rw [pySplit_cons_nonws (d :: rest) hcf]
          rw [List.takeWhile_cons_of_neg (by unfold notWsCh; rw [hd]; simp)]
          rw [List.dropWhile_cons_of_neg (by unfold notWsCh; rw [hd]; simp)]
          cases hps : pySplit (d :: rest) with
          | nil => exact absurd hps hne
          | cons p ps =>
            show c :: ' ' :: joinWords (p :: ps) = joinWords ([c] :: p :: ps)
            rfl
        · have hdf : isWsCh d = false := Bool.eq_false_iff.mpr hd
          rw [hdf, if_neg (by simp)]
          rw [pySplit_cons_nonws (d :: rest) hcf]
          rw [List.takeWhile_cons_of_pos (by unfold notWsCh; rw [hdf]; simp)]
          rw [List.dropWhile_cons_of_pos (by unfold notWsCh; rw [hdf]; simp)]
          rw [pySplit_cons_nonws rest hdf]
          simp only [joinWords_cons_cons]

theorem strip_noTrail (l : List Char) :
    ∀ c, (stripC l).getLast? = some c → isWsCh c = false := by
  intro c hc
  unfold stripC at hc
  rw [List.getLast?_reverse] at hc
  cases hY : (l.dropWhile isWsCh).reverse.dropWhile isWsCh with
  | nil => rw [hY] at hc; simp at hc
  | cons u r =>
    rw [hY] at hc
    simp at hc
    subst hc
    exact head_dropWhile hY

theorem head_dropWhile? {p : Char → Bool} {l : List Char} {u : Char}
    (h : (l.dropWhile p).head? = some u) : p u = false := by
  cases hd : l.dropWhile p with
  | nil => rw [hd] at h; simp at h
  | cons a b =>
    rw [hd] at h
    simp at h
    subst h
    exact head_dropWhile hd

theorem strip_starts (l : List Char) : startsWs (stripC l) = false := by
  unfold stripC
  cases hY : (l.dropWhile isWsCh).reverse.dropWhile isWsCh with
  | nil => rfl
  | cons u r =>
    have h1 : ((l.dropWhile isWsCh).reverse.takeWhile isWsCh) ++ (u :: r)
        = (l.dropWhile isWsCh).reverse := by
      rw [← hY]
      exact List.takeWhile_append_dropWhile isWsCh _
    have hglast : (u :: r).getLast? = (l.dropWhile isWsCh).head? := by
      have h2 := congrArg List.getLast? h1
      rw [List.getLast?_append, List.getLast?_reverse] at h2
      cases hg : (u :: r).getLast? with
      | none => simp at hg
      | some v =>
        rw [hg] at h2
        rw [show ∀ (o : Option Char), (some v).or o = some v from fun o => rfl] at h2
        exact h2
    cases hh : (l.dropWhile isWsCh).head? with
    | none => rw [hh] at hglast; simp at hglast
    | some v =>
      rw [hh] at hglast
      have hv : isWsCh v = false := head_dropWhile? hh
      have hhead : ((u :: r).reverse).head? = some v := by
        rw [List.head?_reverse, hglast]
      cases hrev : (u :: r).reverse with
      | nil => simp at hrev
      | cons a t =>
        rw [hrev] at hhead
        simp at hhead
        subst hhead
        exact hv

/-- Splitting the collapsed, stripped text gives the same words as splitting
the original: the composition at the heart of `clean_name`. -/
theorem pySplit_collapse_strip (l : List Char) :
    pySplit (collapseRuns (stripC l)) = pySplit l := by
  rw [collapse_eq_join (strip_noTrail l), strip_starts l, if_neg (by simp)]
  rw [pySplit_join_words (fun w hw => pySplit_words w hw), pySplit_stripC]

/-- The collapsed, stripped text is exactly the words joined by single
spaces. -/
theorem collapse_strip_eq_join (l : List Char) :
    collapseRuns (stripC l) = joinWords (pySplit l) := by
  rw [collapse_eq_join (strip_noTrail l), strip_starts l, if_neg (by simp)]
  rw [pySplit_stripC]

/-! ### `splitSep` / `joinSep` / `capPy` lemmas -/

theorem splitSep_ne_nil (sep : Char) (l : List Char) : splitSep sep l ≠ [] := by
  induction l with
  | nil => simp [splitSep]
  | cons c l ih =>
    unfold splitSep
    split
    · simp
    · split
      · simp
      · simp

theorem joinSep_splitSep (sep : Char) (l : List Char) :
    joinSep sep (splitSep sep l) = l := by
  induction l with
  | nil => rfl
  | cons c l ih =>
    unfold splitSep
    split
    · next hc =>
      subst hc
      cases hs : splitSep c l with
      | nil => exact absurd hs (splitSep_ne_nil c l)
      | cons w ws =>
        show joinSep c ([] :: w :: ws) = c :: l
        show [] ++ c :: joinSep c (w :: ws) = c :: l
        rw [List.nil_append, ← hs, ih]
    · next hc =>
      cases hs : splitSep sep l with
      | nil => exact absurd hs (splitSep_ne_nil sep l)
      | cons w ws =>
        show joinSep sep ((c :: w) :: ws) = c :: l
        rw [hs] at ih
        cases ws with
        | nil =>
          show c :: w = c :: l
          rw [show joinSep sep [w] = w from rfl] at ih
          rw [ih]
        | cons v ws' =>
          show (c :: w) ++ sep :: joinSep sep (v :: ws') = c :: l
          rw [List.cons_append]
          rw [show w ++ sep :: joinSep sep (v :: ws') = joinSep sep (w :: v :: ws') from rfl]
          rw [ih]

theorem splitSep_sep_free {sep : Char} {l : List Char} :
    ∀ w ∈ splitSep sep l, sep ∉ w := by
  induction l with
  | nil =>
    intro w hw
    rw [show splitSep sep [] = [[]] from rfl, List.mem_singleton] at hw
    subst hw
    simp
  | cons c l ih =>
    intro w hw
    unfold splitSep at hw
    split at hw
    · rcases List.mem_cons.mp hw with h1 | h1
      · subst h1; simp
      · exact ih w h1
    · next hc =>
      revert hw
      cases hs : splitSep sep l with
      | nil => exact absurd hs (splitSep_ne_nil sep l)
      | cons u us =>
        intro hw
        rcases List.mem_cons.mp hw with h1 | h1
        · subst h1
          intro habs
          rcases List.mem_cons.mp habs with h2 | h2
          · exact hc h2.symm
          · exact ih u (by rw [hs]; exact List.mem_cons_self u us) h2
        · exact ih w (by rw [hs]; exact List.mem_cons_of_mem u h1)

theorem mem_splitSep {sep : Char} {l w : List Char} {c : Char}
    (hw : w ∈ splitSep sep l) (hc : c ∈ w) : c ∈ l := by
  induction l generalizing w with
  | nil =>
    rw [show splitSep sep [] = [[]] from rfl, List.mem_singleton] at hw
    subst hw
    exact absurd hc (List.not_mem_nil c)
  | cons x l ih =>
    unfold splitSep at hw
    split at hw
    · rcases List.mem_cons.mp hw with h1 | h1
      · subst h1; exact absurd hc (List.not_mem_nil c)
      · exact List.mem_cons_of_mem x (ih h1 hc)
    · revert hw
      cases hs : splitSep sep l with
      | nil => exact fun hw => absurd hs (splitSep_ne_nil sep l)
      | cons u us =>
        intro hw
        rcases List.mem_cons.mp hw with h1 | h1
        · subst h1
          rcases List.mem_cons.mp hc with h2 | h2
          · subst h2; exact List.mem_cons_self c l
          · exact List.mem_cons_of_mem x (ih (by rw [hs]; exact List.mem_cons_self u us) h2)
        · exact List.mem_cons_of_mem x (ih (by rw [hs]; exact List.mem_cons_of_mem u h1) hc)

theorem mem_joinSep {sep : Char} {ws : List (List Char)} {c : Char}
    (hc : c ∈ joinSep sep ws) : c = sep ∨ ∃ w ∈ ws, c ∈ w := by
  induction ws with
  | nil => exact absurd hc (List.not_mem_nil c)
  | cons w ws ih =>
    cases ws with
    | nil =>
      right
      exact ⟨w, List.mem_singleton.mpr rfl, hc⟩
    | cons v ws' =>
      rw [show joinSep sep (w :: v :: ws') = w ++ sep :: joinSep sep (v :: ws') from rfl] at hc
      rcases List.mem_append.mp hc with h1 | h1
      · exact Or.inr ⟨w, List.mem_cons_self _ _, h1⟩
      · rcases List.mem_cons.mp h1 with h2 | h2
        · exact Or.inl h2
        · rcases ih h2 with h3 | ⟨u, hu, hcu⟩
          · exact Or.inl h3
          · exact Or.inr ⟨u, List.mem_cons_of_mem w hu, hcu⟩

theorem length_joinSep (sep : Char) (ws : List (List Char)) :
    (joinSep sep ws).length = (ws.map List.length).sum + (ws.length - 1) := by
  induction ws with
  | nil => rfl
  | cons w ws ih =>
    cases ws with
    | nil => simp [joinSep]
    | cons v ws' =>
      rw [show joinSep sep (w :: v :: ws') = w ++ sep :: joinSep sep (v :: ws') from rfl]
      rw [List.length_append, List.length_cons, ih]
      simp only [List.map_cons, List.sum_cons, List.length_cons]
      omega

theorem splitSep_len2 {sep : Char} {l : List Char} (h : sep ∈ l) :
    2 ≤ (splitSep sep l).length := by
  induction l with
  | nil => exact absurd h (List.not_mem_nil sep)
  | cons c l ih =>
    unfold splitSep
    split
    · have := splitSep_ne_nil sep l
      cases hs : splitSep sep l with
      | nil => exact absurd hs this
      | cons u us => simp
    · next hc =>
      have hsep : sep ∈ l := by
        rcases List.mem_cons.mp h with h1 | h1
        · exact absurd h1.symm hc
        · exact h1
      cases hs : splitSep sep l with
      | nil => exact absurd hs (splitSep_ne_nil sep l)
      | cons u us =>
        have := ih hsep
        rw [hs] at this
        simpa using this

theorem sep_mem_joinSep {sep : Char} {ws : List (List Char)} (h : 2 ≤ ws.length) :
    sep ∈ joinSep sep ws := by
  match ws, h with
  | w :: v :: ws', _ =>
    rw [show joinSep sep (w :: v :: ws') = w ++ sep :: joinSep sep (v :: ws') from rfl]
    exact List.mem_append.mpr (Or.inr (List.mem_cons_self _ _))

theorem capPy_length (w : List Char) : (capPy w).length = w.length := by
  cases w with
  | nil => rfl
  | cons c r => simp [capPy]

theorem capPy_idem (w : List Char) : capPy (capPy w) = capPy w := by
  cases w with
  | nil => rfl
  | cons c r =>
    show (c.toUpper.toUpper :: (r.map Char.toLower).map Char.toLower) = _
    rw [toUpper_toUpper, List.map_map]
    have hcomp : Char.toLower ∘ Char.toLower = Char.toLower := by
      funext x
      exact toLower_toLower x
    rw [hcomp]
    rfl

theorem bool_ext {a b : Bool} (h : a = true ↔ b = true) : a = b := by
  cases a <;> cases b <;> simp_all

theorem toLower_comp : Char.toLower ∘ Char.toLower = Char.toLower := by
  funext x
  exact toLower_toLower x

theorem isWs_toUpper (c : Char) : isWsCh c.toUpper = isWsCh c := by
  apply bool_ext
  rw [isWs_toNat, isWs_toNat, toUpper_toNat]
  split_ifs <;> omega

theorem isWs_toLower (c : Char) : isWsCh c.toLower = isWsCh c := by
  apply bool_ext
  rw [isWs_toNat, isWs_toNat, toLower_toNat]
  split_ifs <;> omega

theorem lowerL_capPy (w : List Char) : (capPy w).map Char.toLower = w.map Char.toLower := by
  cases w with
  | nil => rfl
  | cons c r =>
    show c.toUpper.toLower :: (r.map Char.toLower).map Char.toLower = _
    rw [toLower_toUpper, List.map_map, toLower_comp]
    rfl

theorem mem_capPy {w : List Char} {c : Char} (h : c ∈ capPy w) :
    ∃ d ∈ w, c = d.toUpper ∨ c = d.toLower := by
  cases w with
  | nil => exact absurd h (List.not_mem_nil c)
  | cons x r =>
    rcases List.mem_cons.mp h with h1 | h1
    · exact ⟨x, List.mem_cons_self x r, Or.inl h1⟩
    · obtain ⟨d, hd, hcd⟩ := List.mem_map.mp h1
      exact ⟨d, List.mem_cons_of_mem x hd, Or.inr hcd.symm⟩

theorem capPy_not_mem_low {w : List Char} {d : Char} (hd : d.toNat < 65) (h : d ∉ w) :
    d ∉ capPy w := by
  intro habs
  obtain ⟨x, hx, hcase⟩ := mem_capPy habs
  rcases hcase with h1 | h1
  · exact h ((toUpper_eq_low hd).mp h1.symm ▸ hx)
  · exact h ((toLower_eq_low hd).mp h1.symm ▸ hx)

theorem capPy_no_ws {w : List Char} (hw : ∀ c ∈ w, isWsCh c = false) :
    ∀ c ∈ capPy w, isWsCh c = false := by
  intro c hc
  obtain ⟨d, hd, hcase⟩ := mem_capPy hc
  rcases hcase with h1 | h1
  · rw [h1, isWs_toUpper]; exact hw d hd
  · rw [h1, isWs_toLower]; exact hw d hd

theorem splitSep_cons (sep c : Char) (l : List Char) :
    splitSep sep (c :: l) =
      if c = sep then [] :: splitSep sep l
      else
        match splitSep sep l with
        | [] => [[c]]
        | w :: ws => (c :: w) :: ws := rfl

theorem splitSep_no_sep {sep : Char} {p : List Char} (h : sep ∉ p) :
    splitSep sep p = [p] := by
  induction p with
  | nil => rfl
  | cons c p ih =>
    have hc : c ≠ sep := fun habs => h (by rw [← habs]; exact List.mem_cons_self c p)
    have hp : splitSep sep p = [p] := ih (fun habs => h (List.mem_cons_of_mem c habs))
    rw [splitSep_cons, if_neg hc, hp]

theorem splitSep_cons_sep {sep : Char} {p rest : List Char} (h : sep ∉ p) :
    splitSep sep (p ++ sep :: rest) = p :: splitSep sep rest := by
  induction p with
  | nil =>
    show splitSep sep (sep :: rest) = [] :: splitSep sep rest
    rw [splitSep_cons, if_pos rfl]
  | cons c p ih =>
    have hc : c ≠ sep := fun habs => h (by rw [← habs]; exact List.mem_cons_self c p)
    show splitSep sep (c :: (p ++ sep :: rest)) = (c :: p) :: splitSep sep rest
    rw [splitSep_cons, if_neg hc]
    rw [ih (fun habs => h (List.mem_cons_of_mem c habs))]

theorem splitSep_joinSep {sep : Char} {parts : List (List Char)} (hne : parts ≠ [])
    (hfree : ∀ p ∈ parts, sep ∉ p) : splitSep sep (joinSep sep parts) = parts := by
  induction parts with
  | nil => exact absurd rfl hne
  | cons p parts ih =>
    cases parts with
    | nil =>
      show splitSep sep (joinSep sep [p]) = [p]
      exact splitSep_no_sep (hfree p (List.mem_singleton.mpr rfl))
    | cons q parts' =>
      show splitSep sep (p ++ sep :: joinSep sep (q :: parts')) = _
      rw [splitSep_cons_sep (hfree p (List.mem_cons_self _ _))]
      rw [ih (by simp) (fun x hx => hfree x (List.mem_cons_of_mem p hx))]

theorem map_capPy_idem (parts : List (List Char)) :
    (parts.map capPy).map capPy = parts.map capPy := by
  rw [List.map_map]
  have h : capPy ∘ capPy = capPy := funext capPy_idem
  rw [h]

theorem hyphen_toNat : ('-' : Char).toNat = 45 := rfl

theorem toLower_hyphen : ('-' : Char).toLower = '-' := by decide

theorem toLower_apo : apoCh.toLower = apoCh := by
  rw [toLower_eq_low]
  rw [apoCh_toNat]
  omega

theorem map_toLower_joinSep {sep : Char} (hsep : sep.toLower = sep) (ws : List (List Char)) :
    (joinSep sep ws).map Char.toLower = joinSep sep (ws.map (List.map Char.toLower)) := by
  induction ws with
  | nil => rfl
  | cons w ws ih =>
    cases ws with
    | nil => rfl
    | cons v ws' =>
      show (w ++ sep :: joinSep sep (v :: ws')).map Char.toLower = _
      rw [List.map_append, List.map_cons, hsep, ih]
      rfl

theorem mem_map_toLower_low {l : List Char} {d : Char} (hd : d.toNat < 65) :
    d ∈ l.map Char.toLower ↔ d ∈ l := by
  constructor
  · intro h
    obtain ⟨x, hx, hdx⟩ := List.mem_map.mp h
    exact ((toLower_eq_low hd).mp hdx) ▸ hx
  · intro h
    exact List.mem_map.mpr ⟨d, h, (toLower_eq_low hd).mpr rfl⟩

/-! ### `fixWord` lemmas -/

theorem fixWord_step (w : List Char) :
    fixWord w =
      if w.map Char.toLower ∈ titleLower then
        (if w.map Char.toLower = "dr".toList ∨ w.map Char.toLower = "dr.".toList
         then "Dr.".toList
         else if w.map Char.toLower = "mr".toList ∨ w.map Char.toLower = "mr.".toList
         then "Mr.".toList
         else if w.map Char.toLower = "ms".toList ∨ w.map Char.toLower = "ms.".toList
         then "Ms.".toList
         else if w.map Char.toLower = "mrs".toList ∨ w.map Char.toLower = "mrs.".toList
         then "Mrs.".toList
         else "Miss".toList)
      else if '-' ∈ w then joinSep '-' ((splitSep '-' w).map capPy)
      else if apoCh ∈ w then joinSep apoCh ((splitSep apoCh w).map capPy)
      else capPy w := rfl

theorem fixWord_title_canon {w : List Char} (ht : w.map Char.toLower ∈ titleLower) :
    fixWord w = "Dr.".toList ∨ fixWord w = "Mr.".toList ∨ fixWord w = "Ms.".toList ∨
    fixWord w = "Mrs.".toList ∨ fixWord w = "Miss".toList := by
  rw [fixWord_step, if_pos ht]
  split_ifs <;> simp

theorem fixWord_hyphen {w : List Char} (ht : w.map Char.toLower ∉ titleLower)
    (hh : '-' ∈ w) : fixWord w = joinSep '-' ((splitSep '-' w).map capPy) := by
  rw [fixWord_step, if_neg ht, if_pos hh]

theorem fixWord_apo {w : List Char} (ht : w.map Char.toLower ∉ titleLower)
    (hh : '-' ∉ w) (ha : apoCh ∈ w) :
    fixWord w = joinSep apoCh ((splitSep apoCh w).map capPy) := by
  rw [fixWord_step, if_neg ht, if_neg hh, if_pos ha]

theorem fixWord_plain {w : List Char} (ht : w.map Char.toLower ∉ titleLower)
    (hh : '-' ∉ w) (ha : apoCh ∉ w) : fixWord w = capPy w := by
  rw [fixWord_step, if_neg ht, if_neg hh, if_neg ha]

theorem titles_no_hyphen : ∀ t ∈ titleLower, '-' ∉ t := by decide

theorem titles_no_apo : ∀ t ∈ titleLower, apoCh ∉ t := by decide

theorem hyphen_branch_props {w : List Char} (ht : w.map Char.toLower ∉ titleLower)
    (hh : '-' ∈ w) :
    '-' ∈ fixWord w ∧ (fixWord w).map Char.toLower ∉ titleLower := by
  rw [fixWord_hyphen ht hh]
  have hlen : 2 ≤ ((splitSep '-' w).map capPy).length := by
    rw [List.length_map]
    exact splitSep_len2 hh
  have hmem : '-' ∈ joinSep '-' ((splitSep '-' w).map capPy) := sep_mem_joinSep hlen
  refine ⟨hmem, ?_⟩
  intro habs
  have : '-' ∈ (joinSep '-' ((splitSep '-' w).map capPy)).map Char.toLower :=
    (mem_map_toLower_low (by rw [hyphen_toNat]; omega)).mpr hmem
  exact titles_no_hyphen _ habs this

theorem apo_branch_props {w : List Char} (ht : w.map Char.toLower ∉ titleLower)
    (hh : '-' ∉ w) (ha : apoCh ∈ w) :
    apoCh ∈ fixWord w ∧ '-' ∉ fixWord w ∧ (fixWord w).map Char.toLower ∉ titleLower := by
  rw [fixWord_apo ht hh ha]
  have hlen : 2 ≤ ((splitSep apoCh w).map capPy).length := by
    rw [List.length_map]
    exact splitSep_len2 ha
  have hmem : apoCh ∈ joinSep apoCh ((splitSep apoCh w).map capPy) := sep_mem_joinSep hlen
  have hnh : '-' ∉ joinSep apoCh ((splitSep apoCh w).map capPy) := by
    intro habs
    rcases mem_joinSep habs with h1 | ⟨p', hp', hmem'⟩
    · rw [char_eq_iff_toNat, hyphen_toNat, apoCh_toNat] at h1
      omega
    · obtain ⟨p, hp, hpeq⟩ := List.mem_map.mp hp'
      subst hpeq
      have : '-' ∉ p := fun hc => hh (mem_splitSep hp hc)
      exact capPy_not_mem_low (by rw [hyphen_toNat]; omega) this hmem'
  refine ⟨hmem, hnh, ?_⟩
  intro habs
  have : apoCh ∈ (joinSep apoCh ((splitSep apoCh w).map capPy)).map Char.toLower :=
    (mem_map_toLower_low (by rw [apoCh_toNat]; omega)).mpr hmem
  exact titles_no_apo _ habs this

theorem plain_branch_props {w : List Char} (ht : w.map Char.toLower ∉ titleLower)
    (hh : '-' ∉ w) (ha : apoCh ∉ w) :
    '-' ∉ fixWord w ∧ apoCh ∉ fixWord w ∧ (fixWord w).map Char.toLower ∉ titleLower := by
  rw [fixWord_plain ht hh ha]
  refine ⟨capPy_not_mem_low (by rw [hyphen_toNat]; omega) hh,
    capPy_not_mem_low (by rw [apoCh_toNat]; omega) ha, ?_⟩
  rw [lowerL_capPy]
  exact ht

theorem fixWord_idem (w : List Char) : fixWord (fixWord w) = fixWord w := by
  by_cases ht : w.map Char.toLower ∈ titleLower
  · rcases fixWord_title_canon ht with h | h | h | h | h <;> rw [h] <;> decide
  · by_cases hh : '-' ∈ w
    · obtain ⟨hmem, ht'⟩ := hyphen_branch_props ht hh
      rw [fixWord_hyphen ht' hmem]
      conv_lhs =>
        rw [fixWord_hyphen ht hh]
      rw [fixWord_hyphen ht hh]
      have hfree : ∀ p ∈ (splitSep '-' w).map capPy, '-' ∉ p := by
        intro p hp
        obtain ⟨q, hq, hqe⟩ := List.mem_map.mp hp
        subst hqe
        exact capPy_not_mem_low (by rw [hyphen_toNat]; omega) (splitSep_sep_free q hq)
      rw [splitSep_joinSep (by simpa using splitSep_ne_nil '-' w) hfree]
      rw [map_capPy_idem]
    · by_cases ha : apoCh ∈ w
      · obtain ⟨hmem, hnh, ht'⟩ := apo_branch_props ht hh ha
        rw [fixWord_apo ht' hnh hmem]
        rw [fixWord_apo ht hh ha]
        have hfree : ∀ p ∈ (splitSep apoCh w).map capPy, apoCh ∉ p := by
          intro p hp
          obtain ⟨q, hq, hqe⟩ := List.mem_map.mp hp
          subst hqe
          exact capPy_not_mem_low (by rw [apoCh_toNat]; omega) (splitSep_sep_free q hq)
        rw [splitSep_joinSep (by simpa using splitSep_ne_nil apoCh w) hfree]
        rw [map_capPy_idem]
      · obtain ⟨hnh, hna, ht'⟩ := plain_branch_props ht hh ha
        rw [fixWord_plain ht' hnh hna, fixWord_plain ht hh ha, capPy_idem]

theorem joinSep_length_map_capPy (sep : Char) (w : List Char) :
    (joinSep sep ((splitSep sep w).map capPy)).length = w.length := by
  have h2 := length_joinSep sep (splitSep sep w)
  rw [joinSep_splitSep sep w] at h2
  rw [length_joinSep, List.length_map, List.map_map]
  have h : List.length ∘ capPy = List.length := funext capPy_length
  rw [h, ← h2]

theorem fixWord_ne_nil {w : List Char} (hw : w ≠ []) : fixWord w ≠ [] := by
  by_cases ht : w.map Char.toLower ∈ titleLower
  · rcases fixWord_title_canon ht with h | h | h | h | h <;> rw [h] <;> decide
  · by_cases hh : '-' ∈ w
    · rw [fixWord_hyphen ht hh]
      intro habs
      have := congrArg List.length habs
      rw [joinSep_length_map_capPy] at this
      simp at this
      exact hw this
    · by_cases ha : apoCh ∈ w
      · rw [fixWord_apo ht hh ha]
        intro habs
        have := congrArg List.length habs
        rw [joinSep_length_map_capPy] at this
        simp at this
        exact hw this
      · rw [fixWord_plain ht hh ha]
        cases w with
        | nil => exact absurd rfl hw
        | cons c r => simp [capPy]

theorem fixWord_no_ws {w : List Char} (hw : ∀ c ∈ w, isWsCh c = false) :
    ∀ c ∈ fixWord w, isWsCh c = false := by
  by_cases ht : w.map Char.toLower ∈ titleLower
  · rcases fixWord_title_canon ht with h | h | h | h | h <;> rw [h] <;> decide
  · have hjoin : ∀ (sep : Char), isWsCh sep = false → sep ∈ w ∨ True →
        ∀ c ∈ joinSep sep ((splitSep sep w).map capPy), isWsCh c = false := by
      intro sep hsep _ c hc
      rcases mem_joinSep hc with h1 | ⟨p', hp', hmem'⟩
      · rw [h1]; exact hsep
      · obtain ⟨p, hp, hpeq⟩ := List.mem_map.mp hp'
        subst hpeq
        have hpw : ∀ x ∈ p, isWsCh x = false := fun x hx => hw x (mem_splitSep hp hx)
        exact capPy_no_ws hpw c hmem'
    by_cases hh : '-' ∈ w
    · rw [fixWord_hyphen ht hh]
      exact hjoin '-' (by decide) (Or.inl hh)
    · by_cases ha : apoCh ∈ w
      · rw [fixWord_apo ht hh ha]
        refine hjoin apoCh ?_ (Or.inr trivial)
        rw [show isWsCh apoCh = false ↔ ¬ isWsCh apoCh = true from by simp]
        rw [isWs_toNat, apoCh_toNat]
        omega
      · rw [fixWord_plain ht hh ha]
        exact capPy_no_ws hw

theorem joinWords_ne_nil {ws : List (List Char)} (hne : ws ≠ [])
    (hw : ∀ w ∈ ws, w ≠ []) : joinWords ws ≠ [] := by
  match ws with
  | [w] =>
    show w ≠ []
    exact hw w (List.mem_singleton.mpr rfl)
  | w :: v :: ws' =>
    show w ++ ' ' :: joinSep ' ' (v :: ws') ≠ []
    simp

/-- `clean_name` is idempotent wherever it is defined. -/
theorem clean_name_idem {s y : String} (h : clean_name s = some y) :
    clean_name y = some y := by
  unfold clean_name at h
  by_cases hs : s = ""
  · rw [if_pos hs] at h
    cases h
    rfl
  · rw [if_neg hs] at h
    dsimp only at h
    cases hps : pySplit (collapseRuns (stripC s.toList)) with
    | nil => rw [hps] at h; cases h
    | cons w ws =>
      rw [hps] at h
      have hy : y = String.mk (joinWords ((w :: ws).map fixWord)) :=
        (Option.some.inj h).symm
      have hprops : ∀ u ∈ w :: ws, u ≠ [] ∧ ∀ c ∈ u, isWsCh c = false := by
        rw [← hps]
        exact fun u hu => pySplit_words u hu
      have hprops' : ∀ u ∈ (w :: ws).map fixWord, u ≠ [] ∧ ∀ c ∈ u, isWsCh c = false := by
        intro u hu
        obtain ⟨p, hp, hpe⟩ := List.mem_map.mp hu
        subst hpe
        obtain ⟨hp1, hp2⟩ := hprops p hp
        exact ⟨fixWord_ne_nil hp1, fixWord_no_ws hp2⟩
      have hylist : y.toList = joinWords ((w :: ws).map fixWord) := by
        rw [hy]
        rfl
      have hyne : y ≠ "" := by
        intro habs
        have h2 : y.toList = [] := by rw [habs]; rfl
        rw [hylist] at h2
        exact joinWords_ne_nil (by simp) (fun u hu => (hprops' u hu).1) h2
      unfold clean_name
      rw [if_neg hyne]
      dsimp only
      have hsplit_y : pySplit (collapseRuns (stripC y.toList)) = (w :: ws).map fixWord := by
        rw [pySplit_collapse_strip, hylist, pySplit_join_words hprops']
      rw [hsplit_y]
      have hmapmap : ((w :: ws).map fixWord).map fixWord = (w :: ws).map fixWord := by
        rw [List.map_map]
        have h3 : fixWord ∘ fixWord = fixWord := funext fixWord_idem
        rw [h3]
      cases hmf : (w :: ws).map fixWord with
      | nil => simp at hmf
      | cons u us =>
        rw [hmf] at hmapmap
        show some (String.mk (joinWords (List.map fixWord (u :: us)))) = some y
        rw [hmapmap, ← hmf, hy]

/-! ### The specification's normalizer (claim C6) -/

/-- Association-list lookup for the title table. -/
def lookupL (k : List Char) : List (List Char × List Char) → Option (List Char)
  | [] => none
  | p :: rest => if k = p.1 then some p.2 else lookupL k rest

/-- The spec's title table: recognized spellings to canonical spellings. -/
def canonTitleTable : List (List Char × List Char) :=
  [("dr".toList, "Dr.".toList), ("dr.".toList, "Dr.".toList),
   ("mr".toList, "Mr.".toList), ("mr.".toList, "Mr.".toList),
   ("ms".toList, "Ms.".toList), ("ms.".toList, "Ms.".toList),
   ("mrs".toList, "Mrs.".toList), ("mrs.".toList, "Mrs.".toList),
   ("miss".toList, "Miss".toList)]

/-- Modelled from the amended specification wording of one word of `normalize`:
titles canonical via the table; otherwise, when a hyphen is present, capitalize
the hyphen-delimited segments (lower-casing the rest of each segment, including
after apostrophes); otherwise capitalize apostrophe-delimited segments;
otherwise capitalize the word. -/
def specFixWord (w : List Char) : List Char :=
  match lookupL (w.map Char.toLower) canonTitleTable with
  | some canon => canon
  | none =>
    if '-' ∈ w then joinSep '-' ((splitSep '-' w).map capPy)
    else if apoCh ∈ w then joinSep apoCh ((splitSep apoCh w).map capPy)
    else capPy w

/-- Modelled from the amended specification: collapse whitespace runs to
single spaces (split into words and re-join), and fix each word. -/
def normalizeSpecAmended (s : String) : String :=
  String.mk (joinWords ((pySplit s.toList).map specFixWord))

/-- Modelled from the claim C6 as stated: within every word, capitalize each
hyphen-delimited segment AND each apostrophe-delimited segment independently
(apply the apostrophe split inside every hyphen segment); titles canonical. -/
def normalizeSpecClaim (s : String) : String :=
  let capApoSegs : List Char → List Char := fun seg =>
    joinSep apoCh ((splitSep apoCh seg).map capPy)
  let fix1 : List Char → List Char := fun w =>
    match lookupL (w.map Char.toLower) canonTitleTable with
    | some canon => canon
    | none => joinSep '-' ((splitSep '-' w).map capApoSegs)
  String.mk (joinWords ((pySplit s.toList).map fix1))

/-- The claim's name-shaped grammar: 2-50 characters, letter-bounded, made of
letters, spaces, hyphens, apostrophes and (title) periods, with bounded
internal punctuation (no run of three separator characters). -/
def nameShaped (s : String) : Bool :=
  let l := s.toList
  decide (2 ≤ l.length) && decide (l.length ≤ 50) &&
  isLetterCh (l.headD ' ') && isLetterCh (l.getLastD ' ') &&
  l.all (fun c => isLetterCh c || c = ' ' || c = '-' || c = apoCh || c = '.') &&
  !hasRun3 l

theorem lookupL_none {k : List Char} :
    ∀ {t : List (List Char × List Char)}, (∀ p ∈ t, k ≠ p.1) → lookupL k t = none := by
  intro t
  induction t with
  | nil => intro _; rfl
  | cons p rest ih =>
    intro h
    unfold lookupL
    rw [if_neg (h p (List.mem_cons_self p rest))]
    exact ih (fun q hq => h q (List.mem_cons_of_mem p hq))

theorem fixWord_eq_specFixWord (w : List Char) : fixWord w = specFixWord w := by
  by_cases ht : w.map Char.toLower ∈ titleLower
  · have h9 : w.map Char.toLower = "dr".toList ∨ w.map Char.toLower = "dr.".toList ∨
        w.map Char.toLower = "mr".toList ∨ w.map Char.toLower = "mr.".toList ∨
        w.map Char.toLower = "ms".toList ∨ w.map Char.toLower = "ms.".toList ∨
        w.map Char.toLower = "mrs".toList ∨ w.map Char.toLower = "mrs.".toList ∨
        w.map Char.toLower = "miss".toList := by
      simpa [titleLower] using ht
    unfold specFixWord
    rw [fixWord_step]
    rcases h9 with h | h | h | h | h | h | h | h | h <;>
      rw [h] <;>
      rw [if_pos (by decide)] <;>
      simp [lookupL, canonTitleTable]
  · have hnone : lookupL (w.map Char.toLower) canonTitleTable = none := by
      apply lookupL_none
      intro p hp habs
      apply ht
      rw [habs]
      have : ∀ q ∈ canonTitleTable, q.1 ∈ titleLower := by decide
      exact this p hp
    unfold specFixWord
    rw [hnone, fixWord_step, if_neg ht]

/-- C6: the claim as stated is refuted at `"o'connor-smith"` (a name-shaped
string): `clean_name` takes the hyphen branch and lower-cases the character
after the apostrophe, so the apostrophe-delimited segment `connor` is NOT
capitalized, while the claim's normalization capitalizes every hyphen- and
apostrophe-delimited segment. -/
theorem c6_counterexample :
    nameShaped "o'connor-smith" = true ∧
    clean_name "o'connor-smith" = some "O'connor-Smith" ∧
    normalizeSpecClaim "o'connor-smith" = "O'Connor-Smith" ∧
    clean_name "o'connor-smith" ≠ some (normalizeSpecClaim "o'connor-smith") :=
  ⟨by decide, by decide, by decide, by decide⟩

/-- C6 (amended): for every name-shaped string, `clean_name` succeeds, is
idempotent, and equals the spec normalization with hyphen precedence
(apostrophe segments inside hyphenated words stay lower-cased after the first
letter). -/
theorem c6_normalize_amended (s : String) (hs : nameShaped s = true) :
    ∃ y, clean_name s = some y ∧ clean_name y = some y ∧ y = normalizeSpecAmended s := by
  have hs' := hs
  unfold nameShaped at hs'
  simp only [Bool.and_eq_true, decide_eq_true_eq] at hs'
  have hlen : 2 ≤ s.toList.length := hs'.1.1.1.1.1
  obtain ⟨c, rest, hl⟩ : ∃ c rest, s.toList = c :: rest := by
    cases hcl : s.toList with
    | nil => rw [hcl] at hlen; simp at hlen
    | cons c rest => exact ⟨c, rest, rfl⟩
  have hc : isLetterCh c = true := by
    have h2 := hs'.1.1.1.2
    rw [hl] at h2
    simpa using h2
  have hsne : s ≠ "" := by
    intro habs
    rw [habs] at hl
    cases hl
  have hcw : isWsCh c = false := isLetter_not_ws hc
  have hsplit : pySplit (collapseRuns (stripC s.toList)) = pySplit s.toList :=
    pySplit_collapse_strip _
  have hnonempty : pySplit s.toList ≠ [] := by
    rw [hl]
    exact pySplit_ne_nil (List.mem_cons_self c rest) hcw
  cases hps : pySplit (collapseRuns (stripC s.toList)) with
  | nil =>
    rw [hsplit] at hps
    exact absurd hps hnonempty
  | cons w ws =>
    have hcs : clean_name s = some (String.mk (joinWords ((w :: ws).map fixWord))) := by
      unfold clean_name
      rw [if_neg hsne]
      dsimp only
      rw [hps]
    have h2 : pySplit s.toList = w :: ws := by rw [← hsplit, hps]
    refine ⟨String.mk (joinWords ((w :: ws).map fixWord)), hcs, clean_name_idem hcs, ?_⟩
    unfold normalizeSpecAmended
    rw [h2]
    have h3 : (w :: ws).map fixWord = (w :: ws).map specFixWord := by
      apply List.map_congr_left
      intro a _
      exact fixWord_eq_specFixWord a
    rw [h3]

theorem c6_normalize_amended_witness :
    ∃ y, clean_name "dr jean-luc o'connor" = some y ∧ clean_name y = some y ∧
      y = normalizeSpecAmended "dr jean-luc o'connor" :=
  c6_normalize_amended "dr jean-luc o'connor" (by decide)

end OMVA
namespace OMVA

/-! ### Enrollment session state machine (src/__init__.py)

The skill object is modelled by `SkillState`; the `enrollment_context` dict is
a record of `Option` fields (a key set to Python `None` is modelled as the
field being `none`).  `uuid.uuid4()` tokens and `str(uuid4())[:8]` session ids
are modelled as opaque `Nat` tokens drawn from the fresh counter `nextId`
(Python string truthiness of such an id — a present non-empty string — is
modelled as the option being `some`); `datetime.now()` is a logical clock.
`schedule_event` places `(event id, delay in tenths of a second, callback)` in
`pending`; `speak_dialog` and `bus.emit` append to an effect list; an uncaught
Python exception is an `err` value in the result. -/

/-- Skill configuration (`target_samples`, `confirmation_required`, and
whether `self._bus` is attached). -/
structure Config where
  target_samples : Nat
  confirmation_required : Bool
  busAvailable : Bool
  deriving DecidableEq, Repr

/-- `enrollment_context["current_recording"]` (src/__init__.py:999-1003). -/
structure CurrentRecording where
  sample_id : Nat
  phrase : String
  start_time : Nat
  deriving DecidableEq, Repr

/-- One entry of `enrollment_context["samples"]` (src/__init__.py:1224-1228). -/
structure SampleRec where
  sample_id : Nat
  phrase : String
  recorded_at : Nat
  deriving DecidableEq, Repr

/-- The `enrollment_context` dict as a record of optional fields. -/
structure Ctx where
  state : Option String := none
  user_name : Option String := none
  trigger : Option String := none
  samples_collected : Option Nat := none
  target_samples : Option Nat := none
  started_at : Option Nat := none
  session_id : Option Nat := none
  samples : Option (List SampleRec) := none
  current_sample_index : Option Nat := none
  current_phrase : Option String := none
  recording_start_time : Option Nat := none
  current_recording : Option CurrentRecording := none
  enrollment_id : Option Nat := none
  confirmation_retry_count : Option Nat := none
  sample_retry_count : Option Nat := none
  name_collection_retry_count : Option Nat := none
  timeout_type : Option String := none
  third_person : Option Bool := none
  relationship : Option String := none
  error_code : Option String := none
  error_message : Option String := none
  deriving DecidableEq, Repr

/-- Spoken-dialog parameter values (strings, numbers, optional strings). -/
inductive PV where
  | str (s : String)
  | num (n : Nat)
  | optStr (s : Option String)
  deriving DecidableEq, Repr

/-- Payload fields of an outbound bus message. -/
structure EventData where
  session_id : Option Nat := none
  user_id : Option String := none
  target_samples : Option Nat := none
  sample_id : Option Nat := none
  phrase : Option String := none
  sample_number : Option Nat := none
  total_samples : Option Nat := none
  enrollment_id : Option Nat := none
  sample_count : Option Nat := none
  sample_phrases : Option (List String) := none
  user_name : Option String := none
  reason : Option String := none
  timestamp : Option Nat := none
  deriving DecidableEq, Repr

/-- Observable side effects: bus emissions and spoken dialogs. -/
inductive Effect where
  | emit (event : String) (data : EventData)
  | speak (dialog : String) (params : List (String × PV))
  deriving DecidableEq, Repr

/-- An uncaught Python exception. -/
inductive PyErr where
  | keyError (key : String)
  deriving DecidableEq, Repr

/-- The callbacks handed to `schedule_event` (directly or via
`set_enrollment_timeout`). -/
inductive Task where
  | proceedWithEnrollment
  | startRecording (phrase : String)
  | startSampleCollection
  | finishSampleCollection
  | processingTimeout (enrollment_id : Nat)
  | confirmationTimeout
  | sampleTimeout
  | sessionTimeout
  | nameCollectionTimeout
  | retryTimeout
  | timeoutConfirmationTimeout
  | pausedExpire
  deriving DecidableEq, Repr

/-- The whole mutable skill: context dict, `active_timers` (timeout type to
scheduled-event id), the scheduler's pending events, Adapt contexts, the
fresh-token counter and the clock. -/
structure SkillState where
  ctx : Ctx := {}
  active_timers : List (String × Nat) := []
  pending : List (Nat × Nat × Task) := []
  contexts : List String := []
  nextId : Nat := 0
  clock : Nat := 0
  deriving DecidableEq, Repr

def initState : SkillState := {}

/-- Result of running one handler: new state, effects in order, and the
exception if one escaped. -/
structure Res where
  st : SkillState
  effs : List Effect
  err : Option PyErr := none
  deriving DecidableEq, Repr

def Res.ok (st : SkillState) (effs : List Effect) : Res := ⟨st, effs, none⟩

def Res.fail (st : SkillState) (effs : List Effect) (e : PyErr) : Res := ⟨st, effs, some e⟩

/-- Sequence two handler steps (effects concatenate; an exception stops the
second step). -/
def bindRes (r : Res) (f : SkillState → Res) : Res :=
  match r.err with
  | some _ => r
  | none =>
    let r2 := f r.st
    ⟨r2.st, r.effs ++ r2.effs, r2.err⟩

/-- Python truthiness of an optional string (`None` and `""` are falsy). -/
def truthyS : Option String → Bool
  | none => false
  | some s => decide (s ≠ "")

/-! Bus event names (src/constants.py:33-59) and error codes (101-110). -/

def START_ENROLLMENT : String := "omva.voiceid.start_enrollment"
def COLLECT_SAMPLE : String := "omva.voiceid.collect_sample"
def STOP_SAMPLE_COLLECTION : String := "omva.voiceid.stop_sample_collection"
def SESSION_EXPIRED : String := "omva.voiceid.session_expired"
def ENROLL_USER : String := "ovos.voiceid.enroll_user"

def AUDIO_QUALITY_POOR : String := "audio_quality_poor"
def PROCESSING_FAILED : String := "processing_failed"
def NETWORK_ERROR : String := "network_error"
def PLUGIN_UNAVAILABLE : String := "plugin_unavailable"
def INVALID_NAME : String := "invalid_name"
def USER_EXISTS : String := "user_exists"
def SAMPLE_COUNT_INSUFFICIENT : String := "sample_count_insufficient"

/-- `SAMPLE_PHRASES` (src/constants.py:71-82). -/
def SAMPLE_PHRASES : List String :=
  ["The quick brown fox jumps over the lazy dog",
   "She sells seashells by the seashore",
   "How much wood would a woodchuck chuck if a woodchuck could chuck wood",
   "Peter Piper picked a peck of pickled peppers",
   "A proper copper coffee pot",
   "Red leather, yellow leather",
   "Toy boat, toy boat, toy boat",
   "Unique New York, unique New York",
   "Sally sells seashells down by the seashore",
   "The thirty-three thieves thought that they thrilled the throne throughout Thursday"]

/-- `self.enrollment_timeouts` (src/__init__.py:53-61), in tenths of a
second (so that the 0.5 s scheduling delay stays integral). -/
def enrollmentTimeouts (k : String) : Nat :=
  if k = "confirmation" then 300
  else if k = "sample_collection" then 150
  else if k = "between_samples" then 100
  else if k = "overall_session" then 6000
  else if k = "processing" then 300
  else if k = "retry_confirmation" then 300
  else if k = "name_collection" then 300
  else 0

/-! ### Timeout registry (src/__init__.py:1721-1743) -/

/-- Dict lookup in `active_timers`. -/
def lookupTimer (k : String) : List (String × Nat) → Option Nat
  | [] => none
  | p :: rest => if p.1 = k then some p.2 else lookupTimer k rest

/-- Dict `pop`: remove the entry under `k` (keys are unique). -/
def eraseTimer (k : String) : List (String × Nat) → List (String × Nat)
  | [] => []
  | p :: rest => if p.1 = k then rest else p :: eraseTimer k rest

/-- `self.cancel_scheduled_event(timer_id)`: drop the pending event. -/
def cancel_scheduled_event (tid : Nat) (st : SkillState) : SkillState :=
  { st with pending := st.pending.filter (fun e => decide (e.1 ≠ tid)) }

/-- `self.schedule_event(callback, delay)`: returns the new event's id. -/
def schedule_event (t : Task) (delayDs : Nat) (st : SkillState) : Nat × SkillState :=
  (st.nextId,
   { st with pending := st.pending ++ [(st.nextId, delayDs, t)], nextId := st.nextId + 1 })

/-- `cancel_enrollment_timeout` (src/__init__.py:1732-1737). -/
def cancel_enrollment_timeout (tt : String) (st : SkillState) : SkillState :=
  match lookupTimer tt st.active_timers with
  | none => st
  | some tid =>
    cancel_scheduled_event tid { st with active_timers := eraseTimer tt st.active_timers }

/-- `set_enrollment_timeout` (src/__init__.py:1721-1730): cancel the existing
timer of this type, schedule the callback, record the id. -/
def set_enrollment_timeout (tt : String) (durDs : Nat) (cb : Task) (st : SkillState) :
    SkillState :=
  let st1 := cancel_enrollment_timeout tt st
  let p := schedule_event cb durDs st1
  { p.2 with active_timers := p.2.active_timers ++ [(tt, p.1)] }

/-- `cancel_all_enrollment_timeouts` (src/__init__.py:1739-1743). -/
def cancel_all_enrollment_timeouts (st : SkillState) : SkillState :=
  (st.active_timers.map (fun p => p.1)).foldl (fun s k => cancel_enrollment_timeout k s) st

/-! ### Context helpers -/

def clear_enrollment_context (st : SkillState) : SkillState := { st with ctx := {} }

/-- `reset_enrollment_context` (src/__init__.py:1920-1924). -/
def reset_enrollment_context (st : SkillState) : SkillState :=
  clear_enrollment_context (cancel_all_enrollment_timeouts st)

def set_context (k : String) (st : SkillState) : SkillState :=
  if k ∈ st.contexts then st else { st with contexts := st.contexts ++ [k] }

def remove_context (k : String) (st : SkillState) : SkillState :=
  { st with contexts := st.contexts.filter (fun x => decide (x ≠ k)) }

def tick (st : SkillState) : Nat × SkillState := (st.clock, { st with clock := st.clock + 1 })

def freshUuid (st : SkillState) : Nat × SkillState :=
  (st.nextId, { st with nextId := st.nextId + 1 })

end OMVA
namespace OMVA

/-! ### Handlers (src/__init__.py) -/

/-- `handle_enrollment_failed` (src/__init__.py:1565-1591). -/
def handle_enrollment_failed (cfg : Config) (error_code error_message : String)
    (st : SkillState) : Res :=
  let st := { st with ctx := { st.ctx with
    state := some "failed"
    error_code := some error_code
    error_message := some error_message } }
  if cfg.busAvailable then
    let dlg :=
      if error_code = AUDIO_QUALITY_POOR then "error_audio_quality"
      else if error_code = PROCESSING_FAILED then "error_processing_failed"
      else if error_code = NETWORK_ERROR then "error_network"
      else if error_code = PLUGIN_UNAVAILABLE then "error_plugin_unavailable"
      else if error_code = USER_EXISTS then "error_user_exists"
      else "error_general"
    let st := set_context "AwaitingRetryEnrollment" st
    Res.ok st [Effect.speak dlg [], Effect.speak "ask_try_again" []]
  else Res.ok st []

/-- `send_samples_for_processing` (src/__init__.py:1380-1417). -/
def send_samples_for_processing (cfg : Config) (st : SkillState) : Res :=
  let user_name := st.ctx.user_name
  let samples := st.ctx.samples.getD []
  if !truthyS user_name || samples.isEmpty then
    handle_enrollment_failed cfg PROCESSING_FAILED "Invalid enrollment data" st
  else
    let p1 := freshUuid st
    let eid := p1.1
    let p2 := tick p1.2
    let st := p2.2
    let payload : EventData := { user_id := user_name
                                 session_id := st.ctx.session_id
                                 enrollment_id := some eid
                                 sample_count := some samples.length
                                 sample_phrases := some (samples.map (fun s => s.phrase))
                                 timestamp := some p2.1 }
    let st := { st with ctx := { st.ctx with enrollment_id := some eid } }
    let effs := if cfg.busAvailable then [Effect.emit ENROLL_USER payload] else []
    let p3 := schedule_event (Task.processingTimeout eid) 300 st
    Res.ok p3.2 effs

/-- `finish_sample_collection` (src/__init__.py:1365-1378). -/
def finish_sample_collection (cfg : Config) (st : SkillState) : Res :=
  let samples_count := (st.ctx.samples.getD []).length
  let user_name := st.ctx.user_name.getD "Unknown"
  let st := { st with ctx := { st.ctx with state := some "processing" } }
  bindRes (Res.ok st
    [Effect.speak "samples_complete" [("name", PV.str user_name), ("count", PV.num samples_count)]])
    (send_samples_for_processing cfg)

/-- `start_sample_collection` (src/__init__.py:944-987).  Bracket accesses
`enrollment_context["current_sample_index"]` / `["user_name"]` /
`["target_samples"]` raise `KeyError` when the key is absent. -/
def start_sample_collection (cfg : Config) (st : SkillState) : Res :=
  if st.ctx.current_sample_index.getD 0 ≥ st.ctx.target_samples.getD 3 then
    finish_sample_collection cfg st
  else
    match st.ctx.current_sample_index with
    | none => Res.fail st [] (PyErr.keyError "current_sample_index")
    | some sample_index =>
      let phrase := SAMPLE_PHRASES.getD (sample_index % SAMPLE_PHRASES.length) ""
      let intro : Except PyErr (List Effect) :=
        if sample_index = 0 then
          match st.ctx.user_name, st.ctx.target_samples with
          | none, _ => Except.error (PyErr.keyError "user_name")
          | _, none => Except.error (PyErr.keyError "target_samples")
          | some u, some ts =>
            Except.ok [Effect.speak "ready_for_samples" [("name", PV.str u), ("count", PV.num ts)]]
        else Except.ok []
      match intro with
      | Except.error e => Res.fail st [] e
      | Except.ok introEffs =>
        match st.ctx.target_samples with
        | none => Res.fail st introEffs (PyErr.keyError "target_samples")
        | some ts =>
          let effs := introEffs ++ [Effect.speak "sample_prompt"
            [("number", PV.num (sample_index + 1)), ("total", PV.num ts),
             ("phrase", PV.str phrase)]]
          let st := set_context "AwaitingSample" st
          let p := tick st
          let st := { p.2 with ctx := { p.2.ctx with
            current_phrase := some phrase
            recording_start_time := some p.1 } }
          let st := set_enrollment_timeout "sample_collection"
            (enrollmentTimeouts "sample_collection") Task.sampleTimeout st
          let p2 := schedule_event (Task.startRecording phrase) 10 st
          Res.ok p2.2 effs

/-- `start_recording` (src/__init__.py:989-1019); the log line reads
`enrollment_context["current_sample_index"]`. -/
def start_recording (cfg : Config) (phrase : String) (st : SkillState) : Res :=
  let p := freshUuid st
  let sid := p.1
  let st := p.2
  match st.ctx.current_sample_index with
  | none => Res.fail st [] (PyErr.keyError "current_sample_index")
  | some idx =>
    let p2 := tick st
    let st := { p2.2 with ctx := { p2.2.ctx with
      current_recording := some ⟨sid, phrase, p2.1⟩ } }
    if cfg.busAvailable then
      match st.ctx.target_samples with
      | none => Res.fail st [] (PyErr.keyError "target_samples")
      | some ts =>
        Res.ok st [Effect.emit COLLECT_SAMPLE { session_id := st.ctx.session_id
                                                sample_id := some sid
                                                phrase := some phrase
                                                sample_number := some (idx + 1)
                                                total_samples := some ts }]
    else Res.ok st []

/-- `process_audio_sample` (src/__init__.py:1218-1261). -/
def process_audio_sample (cfg : Config) (rec : CurrentRecording) (st : SkillState) : Res :=
  let sample : SampleRec := ⟨rec.sample_id, rec.phrase, rec.start_time⟩
  match st.ctx.samples with
  | none => Res.fail st [] (PyErr.keyError "samples")
  | some samples0 =>
    let samples := samples0 ++ [sample]
    let st := { st with ctx := { st.ctx with samples := some samples } }
    match st.ctx.current_sample_index with
    | none => Res.fail st [] (PyErr.keyError "current_sample_index")
    | some idx =>
      let st := { st with ctx := { st.ctx with current_sample_index := some (idx + 1) } }
      let st := cancel_enrollment_timeout "sample_collection" st
      let current_sample_num := samples.length
      match st.ctx.target_samples with
      | none => Res.fail st [] (PyErr.keyError "target_samples")
      | some target_samples =>
        let effs := [Effect.speak "sample_accepted"
          [("number", PV.num current_sample_num), ("total", PV.num target_samples)]]
        let st := remove_context "AwaitingSample" st
        let st := { st with ctx := { st.ctx with current_recording := none } }
        if current_sample_num < target_samples then
          Res.ok (schedule_event Task.startSampleCollection 15 st).2 effs
        else
          Res.ok (schedule_event Task.finishSampleCollection 10 st).2 effs

/-- `retry_current_sample` (src/__init__.py:1263-1279). -/
def retry_current_sample (cfg : Config) (st : SkillState) : Res :=
  let st := cancel_enrollment_timeout "sample_collection" st
  let st := { st with ctx := { st.ctx with current_recording := none } }
  let st := set_context "AwaitingRetryConfirmation" st
  let st := set_enrollment_timeout "retry_confirmation"
    (enrollmentTimeouts "retry_confirmation") Task.retryTimeout st
  Res.ok st [Effect.speak "retry_sample" []]

/-- `handle_sample_collected` (src/__init__.py:1529-1552): mismatching
`sample_id`s are dropped; good quality appends the sample, poor quality
retries.  With no in-flight recording, `current_recording` defaults to the
empty dict, whose `sample_id` is `None`; `process_audio_sample({})` would
raise `KeyError("phrase")`. -/
def handle_sample_collected (cfg : Config) (sample_id : Option Nat) (quality_ok : Bool)
    (st : SkillState) : Res :=
  match st.ctx.current_recording with
  | some rec =>
    if some rec.sample_id ≠ sample_id then Res.ok st []
    else if quality_ok then process_audio_sample cfg rec st
    else bindRes (Res.ok st [Effect.speak "sample_quality_poor" []]) (retry_current_sample cfg)
  | none =>
    if sample_id ≠ none then Res.ok st []
    else if quality_ok then Res.fail st [] (PyErr.keyError "phrase")
    else bindRes (Res.ok st [Effect.speak "sample_quality_poor" []]) (retry_current_sample cfg)

/-- `proceed_with_enrollment` (src/__init__.py:675-710). -/
def proceed_with_enrollment (cfg : Config) (st : SkillState) : Res :=
  if !truthyS st.ctx.user_name then
    let st := { st with ctx := { st.ctx with state := some "name_collection" } }
    Res.ok (set_context "AwaitingUserName" st) [Effect.speak "request_name" []]
  else
    let st := { st with ctx := { st.ctx with
      state := some "sample_collection"
      samples := some []
      current_sample_index := some 0 } }
    let emitStep : Except PyErr (List Effect × SkillState) :=
      if cfg.busAvailable then
        match st.ctx.target_samples with
        | none => Except.error (PyErr.keyError "target_samples")
        | some ts =>
          let p := tick st
          Except.ok ([Effect.emit START_ENROLLMENT { session_id := p.2.ctx.session_id
                                                     user_id := p.2.ctx.user_name
                                                     target_samples := some ts
                                                     timestamp := some p.1 }], p.2)
      else Except.ok ([], st)
    match emitStep with
    | Except.error e => Res.fail st [] e
    | Except.ok pr =>
      let st := pr.2
      match st.ctx.user_name, st.ctx.target_samples with
      | none, _ => Res.fail st pr.1 (PyErr.keyError "user_name")
      | _, none => Res.fail st pr.1 (PyErr.keyError "target_samples")
      | some u, some ts =>
        bindRes (Res.ok st (pr.1 ++ [Effect.speak "ready_for_samples"
          [("name", PV.str u), ("count", PV.num ts)]]))
          (start_sample_collection cfg)

/-- `start_enrollment_flow` (src/__init__.py:861-942). -/
def start_enrollment_flow (cfg : Config) (user_name : Option String) (trigger : String)
    (st : SkillState) : Res :=
  let st := cancel_all_enrollment_timeouts st
  let is_third_person := st.ctx.third_person.getD false
  let relationship := st.ctx.relationship
  let p1 := tick st
  let p2 := freshUuid p1.2
  let st := { p2.2 with ctx := { p2.2.ctx with
    state := some (if !is_third_person || truthyS user_name then "confirmation"
      else "name_collection")
    user_name := user_name
    trigger := some trigger
    samples_collected := some 0
    target_samples := some cfg.target_samples
    started_at := some p1.1
    session_id := some p2.1 } }
  let st := set_enrollment_timeout "overall_session" (enrollmentTimeouts "overall_session")
    Task.sessionTimeout st
  if is_third_person && !truthyS user_name then
    let st := set_context "AwaitingThirdPersonName" st
    let st := set_enrollment_timeout "name_collection" (enrollmentTimeouts "name_collection")
      Task.nameCollectionTimeout st
    Res.ok st [Effect.speak "third_person_enrollment"
      [("relationship", PV.str (relationship.getD "someone else"))]]
  else
    let effs :=
      if is_third_person && truthyS user_name then
        [Effect.speak "third_person_ready" [("name", PV.optStr user_name)]]
      else if truthyS user_name then
        [Effect.speak "enrollment_start_with_name" [("name", PV.optStr user_name)]]
      else [Effect.speak "enrollment_start_no_name" []]
    if cfg.confirmation_required then
      let st := set_context "AwaitingEnrollmentConfirmation" st
      let st := set_enrollment_timeout "confirmation" (enrollmentTimeouts "confirmation")
        Task.confirmationTimeout st
      Res.ok st effs
    else
      Res.ok (schedule_event Task.proceedWithEnrollment 5 st).2 effs

end OMVA
namespace OMVA

/-- Substring test (Python `needle in hay`). -/
def containsSub (hay needle : List Char) : Bool :=
  match hay with
  | [] => needle.isEmpty
  | c :: t => needle.isPrefixOf (c :: t) || containsSub t needle

/-- Fields of an `ovos.voiceid.enroll.response` message. -/
structure RespData where
  status : Option String := none
  user_id : Option String := none
  enrollment_id : Option Nat := none
  samples_processed : Option Nat := none
  message : Option String := none
  deriving DecidableEq, Repr

/-- `handle_enrollment_response` (src/__init__.py:1428-1484): a response whose
`enrollment_id` and the stored id are both present but differ is dropped;
otherwise success completes and resets, and an error is classified by
substring matching on the message text. -/
def handle_enrollment_response (cfg : Config) (rd : RespData) (st : SkillState) : Res :=
  let status := rd.status.getD "error"
  let user_id := rd.user_id.getD "Unknown"
  let enrollment_id := rd.enrollment_id
  let current_enrollment_id := st.ctx.enrollment_id
  if enrollment_id.isSome && current_enrollment_id.isSome &&
      decide (enrollment_id ≠ current_enrollment_id) then
    Res.ok st []
  else if status = "success" then
    let st := { st with ctx := { st.ctx with state := some "completed" } }
    let samples_processed := rd.samples_processed.getD 0
    let effs := if cfg.busAvailable then
      [Effect.speak "enrollment_success"
        [("name", PV.str user_id), ("samples", PV.num samples_processed),
         ("total_users", PV.num 1)]]
      else []
    Res.ok (reset_enrollment_context st) effs
  else
    let error_message := rd.message.getD "Unknown error"
    let mc := error_message.toList
    let error_code :=
      if containsSub mc ("User ID is required".toList) ||
         containsSub mc ("missing user_name".toList) then INVALID_NAME
      else if containsSub mc ("Audio samples are required".toList) ||
         containsSub mc ("No valid audio samples".toList) then SAMPLE_COUNT_INSUFFICIENT
      else if containsSub mc ("Voice processor not initialized".toList) then PLUGIN_UNAVAILABLE
      else PROCESSING_FAILED
    handle_enrollment_failed cfg error_code error_message st

/-- `handle_processing_timeout` (src/__init__.py:1554-1563). -/
def handle_processing_timeout (cfg : Config) (enrollment_id : Nat) (st : SkillState) : Res :=
  if st.ctx.state = some "processing" then
    handle_enrollment_failed cfg PROCESSING_FAILED "Processing timeout" st
  else Res.ok st []

/-- `handle_confirmation_timeout` (src/__init__.py:1749-1763). -/
def handle_confirmation_timeout (cfg : Config) (st : SkillState) : Res :=
  let retry_count := st.ctx.confirmation_retry_count.getD 0
  if retry_count < 2 then
    let st := { st with ctx :=
      { st.ctx with confirmation_retry_count := some (retry_count + 1) } }
    let st := set_enrollment_timeout "confirmation" 300 Task.confirmationTimeout st
    Res.ok st [Effect.speak "enrollment_timeout_confirmation" []]
  else
    Res.ok (reset_enrollment_context st) [Effect.speak "enrollment_cancelled_timeout" []]

/-- `handle_name_collection_timeout` (src/__init__.py:1765-1779). -/
def handle_name_collection_timeout (cfg : Config) (st : SkillState) : Res :=
  let retry_count := st.ctx.name_collection_retry_count.getD 0
  if retry_count < 2 then
    let relationship := st.ctx.relationship.getD "someone else"
    let st := { st with ctx :=
      { st.ctx with name_collection_retry_count := some (retry_count + 1) } }
    let st := set_enrollment_timeout "name_collection" 300 Task.nameCollectionTimeout st
    Res.ok st [Effect.speak "ask_try_again" [],
      Effect.speak "third_person_enrollment" [("relationship", PV.str relationship)]]
  else
    Res.ok (reset_enrollment_context st) [Effect.speak "enrollment_cancelled" []]

/-- `restart_current_sample` (src/__init__.py:1857-1870). -/
def restart_current_sample (cfg : Config) (st : SkillState) : Res :=
  let current_phrase := st.ctx.current_phrase.getD ""
  if current_phrase ≠ "" then
    Res.ok (set_enrollment_timeout "sample_collection"
      (enrollmentTimeouts "sample_collection") Task.sampleTimeout st) []
  else
    start_sample_collection cfg st

/-- `handle_sample_timeout` (src/__init__.py:1781-1805). -/
def handle_sample_timeout (cfg : Config) (st : SkillState) : Res :=
  let sample_retry_count := st.ctx.sample_retry_count.getD 0
  let current_phrase := st.ctx.current_phrase.getD ""
  if sample_retry_count < 2 then
    let dlg := if sample_retry_count = 0 then "sample_timeout_first" else "sample_timeout_second"
    let st := { st with ctx :=
      { st.ctx with sample_retry_count := some (sample_retry_count + 1) } }
    bindRes (Res.ok st [Effect.speak dlg [("phrase", PV.str current_phrase)]])
      (restart_current_sample cfg)
  else
    let st := set_context "AwaitingTimeoutConfirmation" st
    let st := { st with ctx := { st.ctx with timeout_type := some "sample_final" } }
    let st := set_enrollment_timeout "timeout_confirmation"
      (enrollmentTimeouts "retry_confirmation") Task.timeoutConfirmationTimeout st
    Res.ok st [Effect.speak "sample_timeout_confirm_abort" []]

/-- `handle_session_timeout` (src/__init__.py:1807-1819). -/
def handle_session_timeout (cfg : Config) (st : SkillState) : Res :=
  let st := set_context "AwaitingTimeoutConfirmation" st
  let st := { st with ctx := { st.ctx with timeout_type := some "session_final" } }
  let st := set_enrollment_timeout "timeout_confirmation"
    (enrollmentTimeouts "retry_confirmation") Task.timeoutConfirmationTimeout st
  Res.ok st [Effect.speak "session_timeout_confirm_abort" []]

/-- `handle_retry_timeout` (src/__init__.py:1821-1825). -/
def handle_retry_timeout (cfg : Config) (st : SkillState) : Res :=
  Res.ok (reset_enrollment_context st) [Effect.speak "enrollment_cancelled_timeout" []]

/-- `handle_timeout_confirmation_timeout` (src/__init__.py:1827-1851). -/
def handle_timeout_confirmation_timeout (cfg : Config) (st : SkillState) : Res :=
  let timeout_type := st.ctx.timeout_type.getD ""
  let st := remove_context "AwaitingTimeoutConfirmation" st
  let effs :=
    if timeout_type = "sample_final" then [Effect.speak "enrollment_cancelled_no_response" []]
    else if timeout_type = "session_final" then
      [Effect.speak "enrollment_session_expired" []] ++
      (if cfg.busAvailable then
        [Effect.emit SESSION_EXPIRED { session_id := st.ctx.session_id
                                       user_name := st.ctx.user_name }]
        else [])
    else []
  Res.ok (reset_enrollment_context st) effs

/-- `expire_paused_enrollment` (src/__init__.py:1914-1918). -/
def expire_paused_enrollment (cfg : Config) (st : SkillState) : Res :=
  Res.ok (reset_enrollment_context st) [Effect.speak "paused_enrollment_expired" []]

/-- `handle_timeout_abort` (src/__init__.py:1339-1363): the abort response to
the continue/abort sub-confirmation.  A session-expired bus event is emitted
only in the `session_final` branch. -/
def handle_timeout_abort (cfg : Config) (st : SkillState) : Res :=
  let st := cancel_enrollment_timeout "timeout_confirmation" st
  let st := remove_context "AwaitingTimeoutConfirmation" st
  let timeout_type := st.ctx.timeout_type.getD ""
  let effs :=
    if timeout_type = "sample_final" then [Effect.speak "enrollment_aborted_by_user" []]
    else if timeout_type = "session_final" then
      [Effect.speak "enrollment_session_aborted" []] ++
      (if cfg.busAvailable then
        [Effect.emit SESSION_EXPIRED { session_id := st.ctx.session_id
                                       user_name := st.ctx.user_name }]
        else [])
    else []
  Res.ok (reset_enrollment_context st) effs

/-- Dispatch a fired scheduled event to its handler. -/
def runTask (cfg : Config) : Task → SkillState → Res
  | Task.proceedWithEnrollment => proceed_with_enrollment cfg
  | Task.startRecording phrase => start_recording cfg phrase
  | Task.startSampleCollection => start_sample_collection cfg
  | Task.finishSampleCollection => finish_sample_collection cfg
  | Task.processingTimeout eid => handle_processing_timeout cfg eid
  | Task.confirmationTimeout => handle_confirmation_timeout cfg
  | Task.sampleTimeout => handle_sample_timeout cfg
  | Task.sessionTimeout => handle_session_timeout cfg
  | Task.nameCollectionTimeout => handle_name_collection_timeout cfg
  | Task.retryTimeout => handle_retry_timeout cfg
  | Task.timeoutConfirmationTimeout => handle_timeout_confirmation_timeout cfg
  | Task.pausedExpire => expire_paused_enrollment cfg

/-- Fire the armed timer registered under `tt` (the scheduler removes the
event; the `active_timers` entry stays, as in the source). -/
def fireTimer (cfg : Config) (tt : String) (st : SkillState) : Res :=
  match lookupTimer tt st.active_timers with
  | none => Res.ok st []
  | some tid =>
    match st.pending.find? (fun e => decide (e.1 = tid)) with
    | none => Res.ok st []
    | some e => runTask cfg e.2.2 (cancel_scheduled_event tid st)

/-- Fire the next short-delay (< 10 s) scheduled callback: the sub-second
follow-ups the handlers queue between external events.  In every run below at
most one such event is pending. -/
def fireNext (cfg : Config) (st : SkillState) : Res :=
  match st.pending.find? (fun e => decide (e.2.1 < 100)) with
  | none => Res.ok st []
  | some e => runTask cfg e.2.2 (cancel_scheduled_event e.1 st)

end OMVA
namespace OMVA

/-! ### Concrete runs -/

/-- Configuration for the verified scenarios: three target samples, no
confirmation step, bus attached. -/
def cfgA : Config := ⟨3, false, true⟩

/-- Deliver a `sample.collected` event carrying exactly the in-flight
recording's `sample_id` with `quality_ok = true`. -/
def deliverMatchingSample (cfg : Config) (st : SkillState) : Res :=
  handle_sample_collected cfg (st.ctx.current_recording.map (fun r => r.sample_id)) true st

/-- The claim C1 scenario: start a session with three target samples, then
three matching good-quality sample-collected events, firing each sub-second
scheduled follow-up in timeline order. -/
def runC1 : Res :=
  bindRes (start_enrollment_flow cfgA (some "Alice") "file_intent" initState) (fun s =>
  bindRes (fireNext cfgA s) (fun s =>
  bindRes (fireNext cfgA s) (fun s =>
  bindRes (deliverMatchingSample cfgA s) (fun s =>
  bindRes (fireNext cfgA s) (fun s =>
  bindRes (fireNext cfgA s) (fun s =>
  bindRes (deliverMatchingSample cfgA s) (fun s =>
  bindRes (fireNext cfgA s) (fun s =>
  bindRes (fireNext cfgA s) (fun s =>
  bindRes (deliverMatchingSample cfgA s) (fun s =>
  fireNext cfgA s))))))))))

/-- `sample_count` payload fields of the batch-enrollment events in an effect
list. -/
def batchSampleCounts (effs : List Effect) : List (Option Nat) :=
  (effs.filterMap (fun e =>
    match e with
    | Effect.emit ev d => if ev = ENROLL_USER then some d.sample_count else none
    | _ => none))

/-- How many bus events named `ev` an effect list emits. -/
def emitCount (ev : String) (effs : List Effect) : Nat :=
  (effs.filterMap (fun e =>
    match e with
    | Effect.emit x d => if x = ev then some d else none
    | _ => none)).length

example : runC1.err = none := by decide

end OMVA
namespace OMVA
example : runC1.st.ctx.state = some "processing" := by decide
example : batchSampleCounts runC1.effs = [some 3] := by decide
example : emitCount START_ENROLLMENT runC1.effs = 1 := by decide
end OMVA
namespace OMVA

/-- A mid-collection session state with collected samples, an in-flight
recording, a stored correlation id and retry counters (as built up by the
flow), used as the concrete prior session for claim C2. -/
def dirtyState : SkillState :=
  { ctx := { state := some "sample_collection"
             user_name := some "Alice"
             trigger := some "file_intent"
             samples_collected := some 0
             target_samples := some 3
             started_at := some 0
             session_id := some 1
             samples := some [⟨2, "She sells seashells by the seashore", 3⟩]
             current_sample_index := some 1
             current_phrase := some "The quick brown fox jumps over the lazy dog"
             current_recording := some ⟨4, "The quick brown fox jumps over the lazy dog", 5⟩
             enrollment_id := some 6
             confirmation_retry_count := some 1
             sample_retry_count := some 2 }
    active_timers := [("overall_session", 0), ("sample_collection", 7)]
    pending := [(0, 6000, Task.sessionTimeout), (7, 150, Task.sampleTimeout)]
    contexts := ["AwaitingSample"]
    nextId := 8
    clock := 6 }

def cfgB : Config := ⟨3, true, true⟩

/-- Starting a new flow on top of `dirtyState`. -/
def runC2 : Res := start_enrollment_flow cfgB (some "Bob") "adapt_intent" dirtyState

example : runC2.err = none := by decide
example : runC2.st.pending.filter (fun e => decide (e.1 = 0) || decide (e.1 = 7)) = [] := by decide
example : runC2.st.ctx.user_name = some "Bob" := by decide
example : runC2.st.ctx.trigger = some "adapt_intent" := by decide
example : runC2.st.ctx.samples = dirtyState.ctx.samples := by decide
example : runC2.st.ctx.current_recording = dirtyState.ctx.current_recording := by decide
example : runC2.st.ctx.enrollment_id = some 6 := by decide
example : runC2.st.ctx.sample_retry_count = some 2 := by decide

/-- The claim C3 scenario up to (not including) the abort: start, begin the
first sample, then let the sample timer fire three times. -/
def runC3pre : Res :=
  bindRes (start_enrollment_flow cfgA (some "Alice") "file_intent" initState) (fun s =>
  bindRes (fireNext cfgA s) (fun s =>
  bindRes (fireNext cfgA s) (fun s =>
  bindRes (fireTimer cfgA "sample_collection" s) (fun s =>
  bindRes (fireTimer cfgA "sample_collection" s) (fun s =>
  fireTimer cfgA "sample_collection" s)))))

/-- The abort response in the continue/abort sub-confirmation. -/
def runC3 : Res := bindRes runC3pre (handle_timeout_abort cfgA)

def phrase0 : String := "The quick brown fox jumps over the lazy dog"

example : runC3pre.err = none := by decide
example : Effect.speak "sample_timeout_first" [("phrase", PV.str phrase0)] ∈ runC3pre.effs := by decide
example : Effect.speak "sample_timeout_second" [("phrase", PV.str phrase0)] ∈ runC3pre.effs := by decide
example : Effect.speak "sample_timeout_confirm_abort" [] ∈ runC3pre.effs := by decide
example : runC3pre.st.ctx.timeout_type = some "sample_final" := by decide
example : "AwaitingTimeoutConfirmation" ∈ runC3pre.st.contexts := by decide
example : emitCount START_ENROLLMENT runC3pre.effs = 1 := by decide
example : runC3.err = none := by decide
example : runC3.st.ctx = {} := by decide
example : runC3.st.active_timers = [] := by decide
example : emitCount SESSION_EXPIRED runC3.effs = 0 := by decide
example : Effect.speak "enrollment_aborted_by_user" [] ∈ runC3.effs := by decide

example : handle_processing_timeout cfgA 99 initState = Res.ok initState [] := by decide
example : (handle_confirmation_timeout cfgA initState).st.ctx.confirmation_retry_count = some 1 := by decide
example : (handle_confirmation_timeout cfgA initState).st.active_timers ≠ [] := by decide
example : (handle_sample_timeout cfgA initState).err = some (PyErr.keyError "current_sample_index") := by decide

end OMVA
namespace OMVA

/-- C4: an enrollment-result event whose enrollment_id is present and differs
from the enrollment_id stored in the session is ignored: the handler returns
the state unchanged with no effects. -/
theorem c4_mismatched_id_ignored (cfg : Config) (st : SkillState) (rd : RespData) (e c : Nat)
    (he : rd.enrollment_id = some e) (hc : st.ctx.enrollment_id = some c) (hne : e ≠ c) :
    handle_enrollment_response cfg rd st = Res.ok st [] := by
  unfold handle_enrollment_response
  rw [he, hc]
  rw [if_pos]
  simp [hne]

theorem handle_enrollment_failed_ctx (cfg : Config) (code msg : String) (st : SkillState) :
    (handle_enrollment_failed cfg code msg st).err = none ∧
    (handle_enrollment_failed cfg code msg st).st.ctx.state = some "failed" ∧
    (handle_enrollment_failed cfg code msg st).st.ctx.error_code = some code := by
  cases hb : cfg.busAvailable
  · simp only [handle_enrollment_failed, hb, Bool.false_eq_true, if_false]
    exact ⟨rfl, rfl, rfl⟩
  · simp only [handle_enrollment_failed, hb, set_context, if_true]
    split <;> exact ⟨rfl, rfl, rfl⟩

/-- C10: an enrollment-result event carrying no enrollment_id is processed as
a match for the current session even when a stored id is present: no exception,
success completes and clears the context, and an error marks the session
failed with an error code. -/
theorem c10_missing_id_processed (cfg : Config) (st : SkillState) (rd : RespData) (c : Nat)
    (hc : st.ctx.enrollment_id = some c) (hmiss : rd.enrollment_id = none) :
    (handle_enrollment_response cfg rd st).err = none ∧
    (rd.status.getD "error" = "success" → (handle_enrollment_response cfg rd st).st.ctx = {}) ∧
    (rd.status.getD "error" ≠ "success" →
      (handle_enrollment_response cfg rd st).st.ctx.state = some "failed" ∧
      (handle_enrollment_response cfg rd st).st.ctx.error_code.isSome = true) := by
  unfold handle_enrollment_response
  rw [hmiss]
  simp only [Option.isSome_none, Bool.false_and, Bool.false_eq_true, if_false]
  by_cases hstat : rd.status.getD "error" = "success"
  · rw [if_pos hstat]
    refine ⟨rfl, fun _ => rfl, fun habs => absurd hstat habs⟩
  · rw [if_neg hstat]
    refine ⟨?_, fun habs => absurd habs hstat, fun _ => ⟨?_, ?_⟩⟩
    · exact (handle_enrollment_failed_ctx _ _ _ _).1
    · exact (handle_enrollment_failed_ctx _ _ _ _).2.1
    · rw [(handle_enrollment_failed_ctx _ _ _ _).2.2]
      rfl

/-- Response with a mismatching enrollment id, for the C4 witness. -/
def rdMismatch : RespData := { status := some "success", enrollment_id := some 5 }

/-- Response with no enrollment id and an error status, for the C10 witness. -/
def rdNoId : RespData := { status := some "error", message := some "Voice processor not initialized" }

/-- A state holding a stored enrollment id. -/
def stWithId : SkillState := { initState with ctx := { enrollment_id := some 6 } }

/-- Witness for C4 at a concrete mismatching response. -/
theorem c4_mismatched_id_ignored_witness :
    handle_enrollment_response cfgA rdMismatch stWithId = Res.ok stWithId [] :=
  c4_mismatched_id_ignored cfgA stWithId rdMismatch 5 6 rfl rfl (by decide)

/-- Witness for C10 at a concrete id-less error response. -/
theorem c10_missing_id_processed_witness :
    (handle_enrollment_response cfgA rdNoId stWithId).err = none ∧
    (rdNoId.status.getD "error" = "success" →
      (handle_enrollment_response cfgA rdNoId stWithId).st.ctx = {}) ∧
    (rdNoId.status.getD "error" ≠ "success" →
      (handle_enrollment_response cfgA rdNoId stWithId).st.ctx.state = some "failed" ∧
      (handle_enrollment_response cfgA rdNoId stWithId).st.ctx.error_code.isSome = true) :=
  c10_missing_id_processed cfgA stWithId rdNoId 6 rfl rfl

end OMVA
namespace OMVA

/-! ### C7: the timeout-registry contract -/

/-- An abstract operation on the timeout registry (`set_enrollment_timeout`,
`cancel_enrollment_timeout`, `cancel_all_enrollment_timeouts`). -/
inductive RegOp where
  | arm (key : String) (durDs : Nat) (cb : Task)
  | cancel (key : String)
  | cancelAll
  deriving Repr

def applyRegOp (st : SkillState) : RegOp → SkillState
  | RegOp.arm k d cb => set_enrollment_timeout k d cb st
  | RegOp.cancel k => cancel_enrollment_timeout k st
  | RegOp.cancelAll => cancel_all_enrollment_timeouts st

/-- Run a sequence of registry operations. -/
def runReg (ops : List RegOp) (st : SkillState) : SkillState :=
  ops.foldl applyRegOp st

/-- The registry invariant: keys are pairwise distinct, pending scheduled
events have pairwise-distinct ids, the multiset of pending ids equals the
multiset of registered timer ids (every registered key owns exactly one live
timer and no orphaned timer survives an arm), and all ids are below the
id counter. -/
def RegInv (st : SkillState) : Prop :=
  (st.active_timers.map Prod.fst).Nodup ∧
  (st.pending.map (fun e => e.1)).Nodup ∧
  (st.pending.map (fun e => e.1)).Perm (st.active_timers.map Prod.snd) ∧
  (∀ e ∈ st.pending, e.1 < st.nextId) ∧
  (∀ q ∈ st.active_timers, q.2 < st.nextId)

theorem lookupTimer_none_iff (k : String) :
    ∀ l : List (String × Nat), lookupTimer k l = none ↔ ∀ q ∈ l, q.1 ≠ k := by
  intro l
  induction l with
  | nil => simp [lookupTimer]
  | cons p rest ih =>
    by_cases hp : p.1 = k
    · simp [lookupTimer, hp]
    · simp [lookupTimer, hp, ih]

theorem lookupTimer_decomp (k : String) :
    ∀ (l : List (String × Nat)) (tid : Nat), lookupTimer k l = some tid →
      ∃ l1 l2, l = l1 ++ (k, tid) :: l2 ∧ (∀ q ∈ l1, q.1 ≠ k) ∧
        eraseTimer k l = l1 ++ l2 := by
  intro l
  induction l with
  | nil => intro tid h; exact absurd h (by simp [lookupTimer])
  | cons p rest ih =>
    intro tid h
    by_cases hp : p.1 = k
    · rw [lookupTimer, if_pos hp] at h
      refine ⟨[], rest, ?_, by simp, ?_⟩
      · have : p = (k, tid) := by
          cases p with
          | mk a b => cases h; cases hp; rfl
        rw [this]; rfl
      · rw [eraseTimer, if_pos hp]
        rfl
    · rw [lookupTimer, if_neg hp] at h
      obtain ⟨l1, l2, hdec, hl1, herase⟩ := ih tid h
      refine ⟨p :: l1, l2, by rw [hdec]; rfl, ?_, ?_⟩
      · intro q hq
        rcases List.mem_cons.mp hq with h1 | h2
        · rw [h1]; exact hp
        · exact hl1 q h2
      · rw [eraseTimer, if_neg hp, herase]
        rfl

theorem map_fst_filter_ne (tid : Nat) :
    ∀ l : List (Nat × Nat × Task),
      (l.filter (fun e => decide (e.1 ≠ tid))).map (fun e => e.1) =
      (l.map (fun e => e.1)).filter (fun x => decide (x ≠ tid)) := by
  intro l
  induction l with
  | nil => rfl
  | cons e rest ih =>
    have ih2 : (rest.filter (fun e => !decide (e.1 = tid))).map (fun e => e.1) =
        (rest.map (fun e => e.1)).filter (fun x => !decide (x = tid)) := by
      simpa using ih
    by_cases he : e.1 = tid
    · simp [List.filter_cons, he, ih2]
    · simp [List.filter_cons, he, ih2]

/-- Canceling an absent key is a no-op. -/
theorem cancel_absent (k : String) (st : SkillState)
    (h : lookupTimer k st.active_timers = none) :
    cancel_enrollment_timeout k st = st := by
  unfold cancel_enrollment_timeout
  rw [h]

/-- `cancel_enrollment_timeout` preserves the registry invariant. -/
theorem regInv_cancel (k : String) (st : SkillState) (h : RegInv st) :
    RegInv (cancel_enrollment_timeout k st) := by
  obtain ⟨hkeys, hpen, hperm, hpb, htb⟩ := h
  cases hl : lookupTimer k st.active_timers with
  | none => rw [cancel_absent k st hl]; exact ⟨hkeys, hpen, hperm, hpb, htb⟩
  | some tid =>
    obtain ⟨l1, l2, hdec, hl1, herase⟩ := lookupTimer_decomp k st.active_timers tid hl
    have hstate : cancel_enrollment_timeout k st =
        { st with active_timers := l1 ++ l2
                  pending := st.pending.filter (fun e => decide (e.1 ≠ tid)) } := by
      unfold cancel_enrollment_timeout
      rw [hl]
      unfold cancel_scheduled_event
      rw [herase]
    rw [hstate]
    have hids : (st.active_timers.map Prod.snd).Nodup := hperm.nodup hpen
    have hids' : ((l1.map Prod.snd) ++ tid :: (l2.map Prod.snd)).Nodup := by
      rw [hdec] at hids
      simpa using hids
    rw [List.nodup_append] at hids'
    obtain ⟨hn1, hn2, hdisj⟩ := hids'
    have htid1 : tid ∉ l1.map Prod.snd := fun hm => hdisj hm (List.mem_cons_self _ _)
    have htid2 : tid ∉ l2.map Prod.snd := (List.nodup_cons.mp hn2).1
    have hf1 : (l1.map Prod.snd).filter (fun x => decide (x ≠ tid)) = l1.map Prod.snd :=
      List.filter_eq_self.mpr (fun a ha => decide_eq_true (fun hEq => htid1 (hEq ▸ ha)))
    have hf2 : (l2.map Prod.snd).filter (fun x => decide (x ≠ tid)) = l2.map Prod.snd :=
      List.filter_eq_self.mpr (fun a ha => decide_eq_true (fun hEq => htid2 (hEq ▸ ha)))
    have hfilt : ((l1.map Prod.snd) ++ tid :: (l2.map Prod.snd)).filter
        (fun x => decide (x ≠ tid)) = (l1 ++ l2).map Prod.snd := by
      rw [List.filter_append, List.filter_cons, hf1, hf2, if_neg (by simp), List.map_append]
    refine ⟨?_, ?_, ?_, ?_, ?_⟩
    · have hsub : List.Sublist ((l1 ++ l2).map Prod.fst) (st.active_timers.map Prod.fst) := by
        rw [hdec]
        exact ((List.Sublist.cons _ (List.Sublist.refl l2)).append_left l1).map Prod.fst
      exact hkeys.sublist hsub
    · rw [map_fst_filter_ne]
      exact hpen.filter _
    · rw [map_fst_filter_ne]
      have h1 := hperm.filter (fun x => decide (x ≠ tid))
      rw [hdec] at h1
      simp only [List.map_append, List.map_cons] at h1
      rw [hfilt] at h1
      exact h1
    · intro e he
      exact hpb e (List.mem_of_mem_filter he)
    · intro q hq
      apply htb
      rw [hdec]
      rcases List.mem_append.mp hq with h1 | h2
      · exact List.mem_append.mpr (Or.inl h1)
      · exact List.mem_append.mpr (Or.inr (List.mem_cons_of_mem _ h2))

/-- After canceling key `k`, `k` is no longer registered (given distinct keys). -/
theorem cancel_key_gone (k : String) (st : SkillState)
    (hkeys : (st.active_timers.map Prod.fst).Nodup) :
    k ∉ (cancel_enrollment_timeout k st).active_timers.map Prod.fst := by
  cases hl : lookupTimer k st.active_timers with
  | none =>
    rw [cancel_absent k st hl]
    intro hm
    obtain ⟨q, hq, hq1⟩ := List.mem_map.mp hm
    exact (lookupTimer_none_iff k st.active_timers).mp hl q hq hq1
  | some tid =>
    obtain ⟨l1, l2, hdec, hl1, herase⟩ := lookupTimer_decomp k st.active_timers tid hl
    have hstate : (cancel_enrollment_timeout k st).active_timers = l1 ++ l2 := by
      unfold cancel_enrollment_timeout
      rw [hl]
      unfold cancel_scheduled_event
      rw [herase]
    rw [hstate]
    have hkeys' : ((l1.map Prod.fst) ++ k :: (l2.map Prod.fst)).Nodup := by
      rw [hdec] at hkeys
      simpa using hkeys
    rw [List.nodup_append] at hkeys'
    obtain ⟨_, hn2, hdisj⟩ := hkeys'
    intro hm
    rw [List.map_append, List.mem_append] at hm
    rcases hm with h1 | h2
    · exact hdisj h1 (List.mem_cons_self _ _)
    · exact (List.nodup_cons.mp hn2).1 h2

/-- `set_enrollment_timeout` preserves the registry invariant. -/
theorem regInv_arm (k : String) (d : Nat) (cb : Task) (st : SkillState) (h : RegInv st) :
    RegInv (set_enrollment_timeout k d cb st) := by
  have h1 := regInv_cancel k st h
  have hgone := cancel_key_gone k st h.1
  obtain ⟨hkeys, hpen, hperm, hpb, htb⟩ := h1
  have hstate : set_enrollment_timeout k d cb st =
      { cancel_enrollment_timeout k st with
        active_timers := (cancel_enrollment_timeout k st).active_timers ++
          [(k, (cancel_enrollment_timeout k st).nextId)]
        pending := (cancel_enrollment_timeout k st).pending ++
          [((cancel_enrollment_timeout k st).nextId, d, cb)]
        nextId := (cancel_enrollment_timeout k st).nextId + 1 } := by
    unfold set_enrollment_timeout schedule_event
    rfl
  rw [hstate]
  refine ⟨?_, ?_, ?_, ?_, ?_⟩
  · simp only [List.map_append, List.map_cons, List.map_nil]
    rw [List.nodup_append]
    exact ⟨hkeys, List.nodup_singleton _, fun a ha hb =>
      hgone ((List.mem_singleton.mp hb) ▸ ha)⟩
  · simp only [List.map_append, List.map_cons, List.map_nil]
    rw [List.nodup_append]
    refine ⟨hpen, List.nodup_singleton _, fun a ha hb => ?_⟩
    obtain ⟨e, he, he1⟩ := List.mem_map.mp ha
    have hlt := hpb e he
    rw [he1, List.mem_singleton.mp hb] at hlt
    exact Nat.lt_irrefl _ hlt
  · simp only [List.map_append, List.map_cons, List.map_nil]
    exact hperm.append (List.Perm.refl _)
  · intro e he
    rcases List.mem_append.mp he with h1 | h2
    · exact Nat.lt_succ_of_lt (hpb e h1)
    · rw [List.mem_singleton.mp h2]
      exact Nat.lt_succ_self _
  · intro q hq
    rcases List.mem_append.mp hq with h1 | h2
    · exact Nat.lt_succ_of_lt (htb q h1)
    · rw [List.mem_singleton.mp h2]
      exact Nat.lt_succ_self _

/-- A fold of cancels preserves the invariant. -/
theorem regInv_cancelFold : ∀ (ks : List String) (st : SkillState), RegInv st →
    RegInv (ks.foldl (fun s k => cancel_enrollment_timeout k s) st) := by
  intro ks
  induction ks with
  | nil => intro st h; exact h
  | cons k rest ih =>
    intro st h
    exact ih _ (regInv_cancel k st h)

/-- `cancel_all_enrollment_timeouts` preserves the registry invariant. -/
theorem regInv_cancelAll (st : SkillState) (h : RegInv st) :
    RegInv (cancel_all_enrollment_timeouts st) :=
  regInv_cancelFold _ st h

/-- Folding cancels over the registry's own key list empties the registry. -/
theorem cancelFold_timers : ∀ (l : List (String × Nat)) (st : SkillState),
    st.active_timers = l →
    ((l.map Prod.fst).foldl (fun s k => cancel_enrollment_timeout k s) st).active_timers
      = [] := by
  intro l
  induction l with
  | nil => intro st h; exact h
  | cons p rest ih =>
    intro st h
    have hl : lookupTimer p.1 st.active_timers = some p.2 := by
      rw [h, lookupTimer, if_pos rfl]
    have hstep : (cancel_enrollment_timeout p.1 st).active_timers = rest := by
      unfold cancel_enrollment_timeout
      rw [hl]
      unfold cancel_scheduled_event
      simp only
      rw [h, eraseTimer, if_pos rfl]
    rw [List.map_cons, List.foldl_cons]
    exact ih (cancel_enrollment_timeout p.1 st) hstep

/-- `cancel_all_enrollment_timeouts` leaves the registry empty. -/
theorem cancelAll_timers (st : SkillState) :
    (cancel_all_enrollment_timeouts st).active_timers = [] :=
  cancelFold_timers st.active_timers st rfl

theorem regInv_init : RegInv initState := by
  refine ⟨?_, ?_, ?_, ?_, ?_⟩ <;> simp [initState]

/-- Any sequence of registry operations preserves the invariant. -/
theorem regInv_run : ∀ (ops : List RegOp) (st : SkillState), RegInv st →
    RegInv (runReg ops st) := by
  intro ops
  induction ops with
  | nil => intro st h; exact h
  | cons op rest ih =>
    intro st h
    refine ih _ ?_
    cases op with
    | arm k d cb => exact regInv_arm k d cb st h
    | cancel k => exact regInv_cancel k st h
    | cancelAll => exact regInv_cancelAll st h

/-- The operation sequence used by the C7 witness. -/
def opsW : List RegOp :=
  [RegOp.arm "sample_collection" 150 Task.sampleTimeout,
   RegOp.arm "sample_collection" 300 Task.sampleTimeout,
   RegOp.cancel "confirmation",
   RegOp.arm "overall_session" 6000 Task.sessionTimeout]

/-- C7: over every sequence of arm/cancel/cancel-all operations from the
initial state the registry keys stay pairwise distinct (at most one live
timer per key) and the pending scheduled events correspond one-to-one to the
registered timer ids (arming a key first cancels that key's old timer);
canceling an absent key leaves the state unchanged and raises nothing, and
cancel-all leaves the registry empty. -/
theorem c7_registry_contract (ops : List RegOp) (k : String) (st : SkillState) :
    ((runReg ops initState).active_timers.map Prod.fst).Nodup ∧
    ((runReg ops initState).pending.map (fun e => e.1)).Perm
      ((runReg ops initState).active_timers.map Prod.snd) ∧
    (lookupTimer k st.active_timers = none → cancel_enrollment_timeout k st = st) ∧
    (cancel_all_enrollment_timeouts st).active_timers = [] := by
  have h := regInv_run ops initState regInv_init
  exact ⟨h.1, h.2.2.1, fun hn => cancel_absent k st hn, cancelAll_timers st⟩

/-- Witness for C7 at a concrete operation sequence and state. -/
theorem c7_registry_contract_witness :
    ((runReg opsW initState).active_timers.map Prod.fst).Nodup ∧
    ((runReg opsW initState).pending.map (fun e => e.1)).Perm
      ((runReg opsW initState).active_timers.map Prod.snd) ∧
    (lookupTimer "zz" dirtyState.active_timers = none →
      cancel_enrollment_timeout "zz" dirtyState = dirtyState) ∧
    (cancel_all_enrollment_timeouts dirtyState).active_timers = [] :=
  c7_registry_contract opsW "zz" dirtyState

end OMVA
namespace OMVA

/-! ### C8: third-person name extraction (`extract_third_person_name`) -/

/-- `\w`: word characters `[a-zA-Z0-9_]`. -/
def wordCh (c : Char) : Bool := c.isAlphanum || c == '_'

/-- `[a-zA-Z]`. -/
def alphaCh (c : Char) : Bool := c.isAlpha

/-- The name-body class `[a-zA-Z\s\-\'\.]` of the source patterns. -/
def nameInnerCh (c : Char) : Bool :=
  c.isAlpha || isWsCh c || c == '-' || c == apoCh || c == '.'

def isWordOpt : Option Char → Bool
  | none => false
  | some c => wordCh c

/-- `\b`: a word boundary between the previous character and the next one. -/
def wordBoundary (prev : Option Char) (s : List Char) : Bool :=
  isWordOpt prev != isWordOpt s.head?

/-- Regular expressions, restricted to the constructs the source patterns use:
character classes, concatenation, alternation, `?`, `+`, bounded `{lo,hi}`,
one capture group and `\b`. -/
inductive RE where
  | eps
  | cls (p : Char → Bool)
  | seq (a b : RE)
  | alt (a b : RE)
  | opt (a : RE)
  | grp (a : RE)
  | wb
  | plus (p : Char → Bool)
  | rep (p : Char → Bool) (lo hi : Nat)

/-- Matcher continuations: previous character, remaining input, capture. -/
def K : Type := Option Char → List Char → Option (List Char) → Option (List Char)

def oOr (a b : Option (List Char)) : Option (List Char) :=
  match a with
  | some x => some x
  | none => b

/-- Greedy `p+` with backtracking (longest first). -/
def plusGo (p : Char → Bool) (k : K) : List Char → Option (List Char) → Option (List Char)
  | [], _ => none
  | c :: rest, cap =>
    if p c then oOr (plusGo p k rest cap) (k (some c) rest cap) else none

/-- Greedy `p{need,need+may}` with backtracking (longest first). -/
def repGo (p : Char → Bool) (k : K) :
    Nat → Nat → Option Char → List Char → Option (List Char) → Option (List Char)
  | need, 0, prev, s, cap => if need = 0 then k prev s cap else none
  | need, _ + 1, prev, [], cap => if need = 0 then k prev [] cap else none
  | need, may + 1, prev, c :: rest, cap =>
    if p c then
      oOr (repGo p k (need - 1) may (some c) rest cap)
          (if need = 0 then k prev (c :: rest) cap else none)
    else if need = 0 then k prev (c :: rest) cap else none

/-- Backtracking matcher in continuation-passing style, following Python
`re` semantics for these constructs: alternatives are tried left to right and
quantifiers are greedy. -/
def mre : RE → Option Char → List Char → Option (List Char) → K → Option (List Char)
  | RE.eps, prev, s, cap, k => k prev s cap
  | RE.cls p, _, s, cap, k =>
    match s with
    | [] => none
    | c :: rest => if p c then k (some c) rest cap else none
  | RE.seq a b, prev, s, cap, k =>
    mre a prev s cap (fun p2 s2 c2 => mre b p2 s2 c2 k)
  | RE.alt a b, prev, s, cap, k => oOr (mre a prev s cap k) (mre b prev s cap k)
  | RE.opt a, prev, s, cap, k => oOr (mre a prev s cap k) (k prev s cap)
  | RE.grp a, prev, s, cap, k =>
    mre a prev s cap (fun p2 s2 _ => k p2 s2 (some (s.take (s.length - s2.length))))
  | RE.wb, prev, s, cap, k => if wordBoundary prev s then k prev s cap else none
  | RE.plus p, _, s, cap, k => plusGo p k s cap
  | RE.rep p lo hi, prev, s, cap, k => repGo p k lo (hi - lo) prev s cap

/-- `re.search`: try a match at each start position, leftmost first; return
the text of capture group 1 on success. -/
def reSearchAux (r : RE) : Option Char → List Char → Option (List Char)
  | prev, [] => mre r prev [] none (fun _ _ cap => some (cap.getD []))
  | prev, c :: rest =>
    match mre r prev (c :: rest) none (fun _ _ cap => some (cap.getD [])) with
    | some cap => some cap
    | none => reSearchAux r (some c) rest

def reSearch (r : RE) (s : List Char) : Option (List Char) :=
  reSearchAux r none s

/-- A case-insensitive literal (the patterns are compiled with
`re.IGNORECASE`); `w` is given in lowercase. -/
def litStr (w : String) : RE :=
  (w.toList.map (fun c => RE.cls (fun x => x.toLower == c))).foldr RE.seq RE.eps

/-- `(?:w1|w2|...)`, alternatives tried in list order. -/
def altStrs : List String → RE
  | [] => RE.cls (fun _ => false)
  | [w] => litStr w
  | w :: rest => RE.alt (litStr w) (altStrs rest)

def seqL (l : List RE) : RE := l.foldr RE.seq RE.eps

def wsPlus : RE := RE.plus isWsCh

/-- `([a-zA-Z][a-zA-Z\s\-\'\.]{1,48}[a-zA-Z])`. -/
def nameGroup : RE :=
  RE.grp (seqL [RE.cls alphaCh, RE.rep nameInnerCh 1 48, RE.cls alphaCh])

/-- The default `relationship_words` (src/__init__.py:204-233). -/
def relationship_words : List String :=
  ["son", "daughter", "wife", "husband", "brother", "sister", "mother", "father",
   "mom", "dad", "kid", "child", "parent", "grandson", "granddaughter",
   "grandfather", "grandmother", "grandpa", "grandma", "uncle", "aunt",
   "cousin", "nephew", "niece", "friend", "partner", "roommate", "colleague"]

/-- `\benroll\s+my\s+(\w+)\'?s\s+voice\b` (src/__init__.py:781-782). -/
def patEnrollMyRel : RE :=
  seqL [RE.wb, litStr "enroll", wsPlus, litStr "my", wsPlus,
    RE.grp (RE.plus wordCh), RE.opt (RE.cls (fun x => x == apoCh)), litStr "s",
    wsPlus, litStr "voice", RE.wb]

/-- `\bregister\s+my\s+(\w+)\'?s\s+voice\b`. -/
def patRegisterMyRel : RE :=
  seqL [RE.wb, litStr "register", wsPlus, litStr "my", wsPlus,
    RE.grp (RE.plus wordCh), RE.opt (RE.cls (fun x => x == apoCh)), litStr "s",
    wsPlus, litStr "voice", RE.wb]

/-- `\benroll\s+([a-zA-Z][a-zA-Z\s\-\'\.]{1,48}[a-zA-Z])\'?s\s+voice\b`. -/
def patEnrollName : RE :=
  seqL [RE.wb, litStr "enroll", wsPlus, nameGroup,
    RE.opt (RE.cls (fun x => x == apoCh)), litStr "s", wsPlus, litStr "voice", RE.wb]

/-- `\bregister\s+([a-zA-Z][a-zA-Z\s\-\'\.]{1,48}[a-zA-Z])\'?s\s+voice\b`. -/
def patRegisterName : RE :=
  seqL [RE.wb, litStr "register", wsPlus, nameGroup,
    RE.opt (RE.cls (fun x => x == apoCh)), litStr "s", wsPlus, litStr "voice", RE.wb]

/-- `\bmy\s+(?:rel1|...)\s+([a-zA-Z][a-zA-Z\s\-\'\.]{1,48}[a-zA-Z])\b`. -/
def patMyRelName : RE :=
  seqL [RE.wb, litStr "my", wsPlus, altStrs relationship_words, wsPlus, nameGroup, RE.wb]

/-- `\b(?:rel1|...)\s+([a-zA-Z][a-zA-Z\s\-\'\.]{1,48}[a-zA-Z])\b`. -/
def patRelName : RE :=
  seqL [RE.wb, altStrs relationship_words, wsPlus, nameGroup, RE.wb]

/-- `relationship_patterns = basic_patterns + dynamic_patterns`
(src/__init__.py:779-806), tried in order. -/
def relationshipPatterns : List RE :=
  [patEnrollMyRel, patRegisterMyRel, patEnrollName, patRegisterName,
   patMyRelName, patRelName]

def lowerS (s : String) : String := String.mk (s.toList.map Char.toLower)

/-- The `unsupported_titles` list of `_is_valid_name_with_supported_title`
(src/__init__.py:843-851). -/
def unsupported_titles : List String :=
  ["professor", "captain", "sergeant", "lieutenant", "colonel", "general", "admiral"]

/-- `str.rstrip(".")` on a character list. -/
def rstripDot (l : List Char) : List Char :=
  (l.reverse.dropWhile (fun c => c == '.')).reverse

/-- `_is_valid_name_with_supported_title` (src/__init__.py:835-859): reject an
empty name and a first word that, lowercased and stripped of trailing dots, is
an unsupported title. (The `supported_titles` list in the source is built but
never consulted.) -/
def isValidWithSupportedTitle (name : String) : Bool :=
  if name = "" then false
  else
    match pySplit name.toList with
    | [] => false
    | w :: _ =>
      let fw := String.mk (rstripDot (w.map Char.toLower))
      if fw ∈ unsupported_titles then false else true

/-- The pattern loop of `extract_third_person_name` (src/__init__.py:808-830):
on a match, a captured relationship word flags third-person mode and returns
no name; a captured name is cleaned, validated and returned with the
third-person flag; otherwise the next pattern is tried. -/
def tryRelPatterns (ctx : Ctx) (u : List Char) : List RE → Option String × Ctx
  | [] => (none, ctx)
  | p :: rest =>
    match reSearch p u with
    | none => tryRelPatterns ctx u rest
    | some cap =>
      let extracted := String.mk (stripC cap)
      let extractedLower := lowerS extracted
      if extractedLower ∈ relationship_words then
        (none, { ctx with third_person := some true, relationship := some extractedLower })
      else
        match clean_name extracted with
        | some cleaned =>
          if isValidWithSupportedTitle cleaned then
            (some cleaned, { ctx with third_person := some true })
          else tryRelPatterns ctx u rest
        | none => tryRelPatterns ctx u rest

/-- `extract_third_person_name` (src/__init__.py:769-832). -/
def extract_third_person_name (ctx : Ctx) (utterance : String) : Option String × Ctx :=
  if utterance = "" then (none, ctx)
  else tryRelPatterns ctx utterance.toList relationshipPatterns

example : reSearch patMyRelName "my son Michael".toList = some "Michael".toList := by decide

example : reSearch patEnrollMyRel "enroll my son's voice".toList = some "son".toList := by
  decide

/-- C8, counterexample: for the utterance "my son Michael" the extractor does
return a candidate — the cleaned name "Michael" — and sets the third-person
flag without recording any relationship, contradicting the claim that no
candidate is returned and relationship = "son" is stored. -/
theorem c8_counterexample :
    extract_third_person_name {} "my son Michael" =
      (some "Michael", { third_person := some true }) ∧
    (extract_third_person_name {} "my son Michael").2.relationship = none := by
  decide

/-- C8, amended: when the captured token is itself a relationship word (as in
"enroll my son's voice") the extractor returns no candidate and flags
third-person mode with the relationship tag; when the capture is an actual
name (as in "my son Michael") it returns the cleaned name with the
third-person flag set and no relationship recorded. -/
theorem c8_extract_amended :
    extract_third_person_name {} "enroll my son's voice" =
      (none, { third_person := some true, relationship := some "son" }) ∧
    extract_third_person_name {} "my son Michael" =
      (some "Michael", { third_person := some true }) := by
  decide

end OMVA
namespace OMVA

/-! ### Claim theorems C1, C2, C3, C9 -/

/-- C1: with a target sample count of 3, after three successive
good-quality sample-collected events each carrying the in-flight recording's
sample id, no exception occurs, the session state is "processing", and
exactly one batch-enrollment bus event is emitted, with sample_count 3. -/
theorem c1_three_samples_processing :
    runC1.err = none ∧
    runC1.st.ctx.state = some "processing" ∧
    batchSampleCounts runC1.effs = [some 3] := by
  decide

/-- C2: starting a new enrollment flow over a state still holding a previous
session cancels the previously armed timers (ids 0 and 7 are gone from the
scheduler) and installs the new name and trigger, but the prior session's
samples, in-flight recording, enrollment id and sample retry counter all
survive into the new session record: the source merges the new fields with
`dict.update` instead of replacing the record, contradicting the claim that
no prior field survives. -/
theorem c2_stale_fields_survive :
    runC2.err = none ∧
    runC2.st.pending.filter (fun e => decide (e.1 = 0) || decide (e.1 = 7)) = [] ∧
    runC2.st.ctx.user_name = some "Bob" ∧
    runC2.st.ctx.trigger = some "adapt_intent" ∧
    runC2.st.ctx.samples = dirtyState.ctx.samples ∧
    runC2.st.ctx.current_recording = dirtyState.ctx.current_recording ∧
    runC2.st.ctx.enrollment_id = some 6 ∧
    runC2.st.ctx.sample_retry_count = some 2 := by
  decide

/-- C3, counterexample: in the three-sample-timeouts-then-abort scenario the
session HAS been started with the engine (exactly one start-enrollment event
was emitted), the abort tears the session down, and yet no session-expired
notification is emitted — refuting "emits a session-expired notification if
and only if a session-start event had already been sent". -/
theorem c3_counterexample :
    emitCount START_ENROLLMENT runC3.effs = 1 ∧
    runC3.err = none ∧
    runC3.st.ctx = {} ∧
    runC3.st.active_timers = [] ∧
    emitCount SESSION_EXPIRED runC3.effs = 0 := by
  decide

theorem abort_ctx_eq (st : SkillState) :
    (remove_context "AwaitingTimeoutConfirmation"
      (cancel_enrollment_timeout "timeout_confirmation" st)).ctx = st.ctx := by
  show (cancel_enrollment_timeout "timeout_confirmation" st).ctx = st.ctx
  unfold cancel_enrollment_timeout
  cases lookupTimer "timeout_confirmation" st.active_timers <;> rfl

/-- `handle_timeout_abort` always resets the context, and emits the
session-expired notification exactly when the sub-confirmation was entered
from the final session timeout with the bus attached. -/
theorem abort_expiry (cfg : Config) (st : SkillState) :
    (handle_timeout_abort cfg st).st.ctx = {} ∧
    emitCount SESSION_EXPIRED (handle_timeout_abort cfg st).effs =
      (if st.ctx.timeout_type.getD "" = "session_final" ∧ cfg.busAvailable = true
       then 1 else 0) := by
  constructor
  · rfl
  · simp only [handle_timeout_abort]
    rw [abort_ctx_eq]
    by_cases h1 : st.ctx.timeout_type.getD "" = "sample_final"
    · rw [if_pos h1, if_neg (fun hc => by
        rw [h1] at hc
        exact absurd hc.1 (by decide))]
      simp [emitCount, Res.ok]
    · rw [if_neg h1]
      by_cases h2 : st.ctx.timeout_type.getD "" = "session_final"
      · rw [if_pos h2]
        by_cases h3 : cfg.busAvailable = true
        · rw [if_pos h3, if_pos ⟨h2, h3⟩]
          simp [emitCount, Res.ok, SESSION_EXPIRED]
        · rw [if_neg h3, if_neg (fun hc => h3 hc.2)]
          simp [emitCount, Res.ok]
      · rw [if_neg h2, if_neg (fun hc => h2 hc.1)]
        simp [emitCount, Res.ok]

/-- C3, amended: the first and second sample timeouts for the same phrase
re-prompt with that phrase; the third enters the continue/abort
sub-confirmation; an abort response there always tears the session down, and
it emits a session-expired notification exactly when the sub-confirmation was
entered from the final session timeout ("session_final") with the bus
attached — never from the sample-timeout path. -/
theorem c3_abort_amended (cfg : Config) (st : SkillState) :
    (Effect.speak "sample_timeout_first" [("phrase", PV.str phrase0)] ∈ runC3pre.effs ∧
     Effect.speak "sample_timeout_second" [("phrase", PV.str phrase0)] ∈ runC3pre.effs ∧
     Effect.speak "sample_timeout_confirm_abort" [] ∈ runC3pre.effs ∧
     runC3pre.st.ctx.timeout_type = some "sample_final" ∧
     "AwaitingTimeoutConfirmation" ∈ runC3pre.st.contexts ∧
     runC3.st.ctx = {} ∧
     emitCount SESSION_EXPIRED runC3.effs = 0) ∧
    ((handle_timeout_abort cfg st).st.ctx = {} ∧
     emitCount SESSION_EXPIRED (handle_timeout_abort cfg st).effs =
       (if st.ctx.timeout_type.getD "" = "session_final" ∧ cfg.busAvailable = true
        then 1 else 0)) :=
  ⟨by decide, abort_expiry cfg st⟩

/-- C9: timer callbacks fired against a reset (empty) session: the processing
timeout is a no-op and the confirmation timeout raises nothing, but the
confirmation timeout nevertheless mutates the empty session (it installs a
retry counter) and the sample timeout raises KeyError("current_sample_index")
on the empty context — refuting the claim that every stale callback neither
raises nor modifies state. -/
theorem c9_stale_sample_timeout_raises :
    handle_processing_timeout cfgA 99 initState = Res.ok initState [] ∧
    (handle_confirmation_timeout cfgA initState).err = none ∧
    (handle_confirmation_timeout cfgA initState).st.ctx.confirmation_retry_count = some 1 ∧
    (handle_sample_timeout cfgA initState).err =
      some (PyErr.keyError "current_sample_index") := by
  decide

end OMVA
